import Mathlib

/-!
Verification of the donor-deduplication engine
(`scripts/assign_master_ids.py`, `scripts/normalize_addresses.py`,
`scripts/household_id_builder.py`, `scripts/apply_alias_overrides.py`,
`scripts/link_committees_to_candidates.py`).

Strings are modelled as `List Char` (`Str`).  Python's `str.upper` /
`str.strip` / `\d` / `\s` are modelled over the ASCII range, which is the
range the donor data and every concrete input below live in.  Floating
point arithmetic of the source is modelled with exact rationals (`ℚ`).
-/

set_option maxRecDepth 4000

abbrev Str := List Char

/-- Convert a Lean string literal to the `List Char` model. -/
def strL (s : String) : Str := s.data

/-- ASCII model of Python's whitespace class (`\s`, `str.strip`). -/
def isWsChar (c : Char) : Bool :=
  c = ' ' || c = '\t' || c = '\n' || c = '\r' || c = '\x0b' || c = '\x0c'

/-- ASCII model of `\d` / `str.isdigit` as used by the scripts. -/
def isDigitChar (c : Char) : Bool := '0' ≤ c && c ≤ '9'

/-- ASCII model of `str.upper` on a single character. -/
def upperChar (c : Char) : Char :=
  if 'a' ≤ c && c ≤ 'z' then Char.ofNat (c.toNat - 32) else c

/-- ASCII model of `str.lower` on a single character. -/
def lowerChar (c : Char) : Char :=
  if 'A' ≤ c && c ≤ 'Z' then Char.ofNat (c.toNat + 32) else c

/-- `str.upper`. -/
def upperStr (s : Str) : Str := s.map upperChar

/-- `str.lower`. -/
def lowerStr (s : Str) : Str := s.map lowerChar

/-- `str.strip()`: drop leading and trailing whitespace. -/
def stripStr (s : Str) : Str :=
  ((s.dropWhile isWsChar).reverse.dropWhile isWsChar).reverse

/-- `x.upper().strip()`, the name normalisation used throughout
`assign_master_ids.py`. -/
def normName (s : Str) : Str := stripStr (upperStr s)

/-- `x.lower().strip()`, used by `link_committees_to_candidates.py`. -/
def lowerStrip (s : Str) : Str := stripStr (lowerStr s)

/-- `normalize_zip` from `scripts/normalize_addresses.py`: keep digits only,
truncate to five digits or left-pad with zeros. -/
def normalize_zip (z : Str) : Str :=
  if z = [] then []
  else
    let digits := z.filter isDigitChar
    if 5 ≤ digits.length then digits.take 5
    else if 0 < digits.length then List.replicate (5 - digits.length) '0' ++ digits
    else []

/-- `extract_street_number` from `scripts/assign_master_ids.py`:
the leading digit run of the stripped address (possibly empty). -/
def extract_street_number (addr : Str) : Str :=
  (stripStr addr).takeWhile isDigitChar

/-! ### SHA-256 (pure, executable; byte lists of `Nat`).  -/

def pow32 : Nat := 4294967296

def rotr32 (n x : Nat) : Nat := ((x >>> n) ||| (x <<< (32 - n))) % pow32

def bsig0 (x : Nat) : Nat := rotr32 2 x ^^^ rotr32 13 x ^^^ rotr32 22 x

def bsig1 (x : Nat) : Nat := rotr32 6 x ^^^ rotr32 11 x ^^^ rotr32 25 x

def ssig0 (x : Nat) : Nat := rotr32 7 x ^^^ rotr32 18 x ^^^ (x >>> 3)

def ssig1 (x : Nat) : Nat := rotr32 17 x ^^^ rotr32 19 x ^^^ (x >>> 10)

def chF (x y z : Nat) : Nat := (x &&& y) ^^^ ((pow32 - 1 - x) &&& z)

def majF (x y z : Nat) : Nat := (x &&& y) ^^^ (x &&& z) ^^^ (y &&& z)

def shaK : List Nat :=
  [1116352408, 1899447441, 3049323471, 3921009573, 961987163,
   1508970993, 2453635748, 2870763221, 3624381080, 310598401,
   607225278, 1426881987, 1925078388, 2162078206, 2614888103,
   3248222580, 3835390401, 4022224774, 264347078, 604807628,
   770255983, 1249150122, 1555081692, 1996064986, 2554220882,
   2821834349, 2952996808, 3210313671, 3336571891, 3584528711,
   113926993, 338241895, 666307205, 773529912, 1294757372,
   1396182291, 1695183700, 1986661051, 2177026350, 2456956037,
   2730485921, 2820302411, 3259730800, 3345764771, 3516065817,
   3600352804, 4094571909, 275423344, 430227734, 506948616,
   659060556, 883997877, 958139571, 1322822218, 1537002063,
   1747873779, 1955562222, 2024104815, 2227730452, 2361852424,
   2428436474, 2756734187, 3204031479, 3329325298]

def shaH0 : List Nat :=
  [1779033703, 3144134277, 1013904242, 2773480762,
   1359893119, 2600822924, 528734635, 1541459225]

structure SHAState where
  a : Nat
  b : Nat
  c : Nat
  d : Nat
  e : Nat
  f : Nat
  g : Nat
  h : Nat

def shaRound (st : SHAState) (kw : Nat × Nat) : SHAState :=
  let t1 := (st.h + bsig1 st.e + chF st.e st.f st.g + kw.1 + kw.2) % pow32
  let t2 := (bsig0 st.a + majF st.a st.b st.c) % pow32
  ⟨(t1 + t2) % pow32, st.a, st.b, st.c, (st.d + t1) % pow32, st.e, st.f, st.g⟩

def toWords : List Nat → List Nat
  | a :: b :: c :: d :: rest => (((a * 256 + b) * 256 + c) * 256 + d) :: toWords rest
  | _ => []

def schedGo : Nat → List Nat → List Nat
  | 0, w => w
  | n + 1, w =>
    let L := w.length
    let x := (w.getD (L - 16) 0 + ssig0 (w.getD (L - 15) 0) +
              w.getD (L - 7) 0 + ssig1 (w.getD (L - 2) 0)) % pow32
    schedGo n (w ++ [x])

def shaCompress (hs : List Nat) (chunk : List Nat) : List Nat :=
  let w := schedGo 48 (toWords chunk)
  let st0 : SHAState :=
    ⟨hs.getD 0 0, hs.getD 1 0, hs.getD 2 0, hs.getD 3 0,
     hs.getD 4 0, hs.getD 5 0, hs.getD 6 0, hs.getD 7 0⟩
  let st := (shaK.zip w).foldl shaRound st0
  [(hs.getD 0 0 + st.a) % pow32, (hs.getD 1 0 + st.b) % pow32,
   (hs.getD 2 0 + st.c) % pow32, (hs.getD 3 0 + st.d) % pow32,
   (hs.getD 4 0 + st.e) % pow32, (hs.getD 5 0 + st.f) % pow32,
   (hs.getD 6 0 + st.g) % pow32, (hs.getD 7 0 + st.h) % pow32]

def chunksGo : Nat → List Nat → List (List Nat)
  | 0, _ => []
  | _, [] => []
  | fuel + 1, l@(_ :: _) => l.take 64 :: chunksGo fuel (l.drop 64)

def chunks64 (l : List Nat) : List (List Nat) := chunksGo l.length l

def lenBytes64 (n : Nat) : List Nat :=
  [n >>> 56 % 256, n >>> 48 % 256, n >>> 40 % 256, n >>> 32 % 256,
   n >>> 24 % 256, n >>> 16 % 256, n >>> 8 % 256, n % 256]

def padMsg (msg : List Nat) : List Nat :=
  let len := msg.length
  let zeros := (120 - ((len + 1) % 64)) % 64
  msg ++ [128] ++ List.replicate zeros 0 ++ lenBytes64 (8 * len)

def wordBytes (w : Nat) : List Nat :=
  [w >>> 24 % 256, w >>> 16 % 256, w >>> 8 % 256, w % 256]

/-- SHA-256 of a byte list, as 32 bytes. -/
def sha256 (msg : List Nat) : List Nat :=
  ((chunks64 (padMsg msg)).foldl shaCompress shaH0).foldr
    (fun w acc => wordBytes w ++ acc) []

def hexDigit (n : Nat) : Char :=
  if n < 10 then Char.ofNat (48 + n) else Char.ofNat (87 + n)

def byteHex (b : Nat) : Str := [hexDigit (b / 16), hexDigit (b % 16)]

/-- `hashlib.sha256(...).hexdigest()`: lowercase hex of the digest. -/
def sha256hex (msg : List Nat) : Str :=
  (sha256 msg).foldr (fun b acc => byteHex b ++ acc) []

/-- UTF-8 encoding of one character (`str.encode()`). -/
def utf8Char (c : Char) : List Nat :=
  let n := c.toNat
  if n < 128 then [n]
  else if n < 2048 then [192 + n / 64, 128 + n % 64]
  else if n < 65536 then [224 + n / 4096, 128 + n / 64 % 64, 128 + n % 64]
  else [240 + n / 262144, 128 + n / 4096 % 64, 128 + n / 64 % 64, 128 + n % 64]

/-- `str.encode()`: UTF-8 bytes of a string. -/
def utf8Encode (s : Str) : List Nat :=
  s.foldr (fun c acc => utf8Char c ++ acc) []

theorem sha256hex_empty :
    sha256hex (utf8Encode (strL "")) =
      strL "e3b0c44298fc1c149afbf4c8996fb92427ae41e4649b934ca495991b7852b855" := by
  decide

theorem sha256hex_abc :
    sha256hex (utf8Encode (strL "abc")) =
      strL "ba7816bf8f01cfea414140de5dae2223b00361a396177a9cb410ff61f20015ad" := by
  decide

/-! ### Jaro-Winkler similarity (`calculate_name_similarity`)

The source's windowed matching loop marks, for each position `i` of `s1` in
order, the first unmarked position `j` of `s2` inside the window
`[max(0, i-d), min(i+d+1, len2))` holding the same character.  We model the
loop as `greedyGoL`, which returns the list of matched index pairs in the
order they are produced; the source's `s1_matches` flags are the first
components, its `s2_matches` flags are the second components, and its
`matches` counter is the length of that list. -/

def matchDistance (l1 l2 : Nat) : Nat := max l1 l2 / 2 - 1

/-- The inner `for j in range(...)` loop: first `j` in `[lo, hi)` whose
`s2_matches[j]` flag is unset and whose character equals `c`. -/
def findMatchJ (c : Char) (s2 : Str) (m2 : List Bool) (lo hi : Nat) : Option Nat :=
  (List.range' lo (hi - lo)).find?
    (fun j => !(m2.getD j true) && (s2.getD j 'A' == c))

/-- The outer `for i in range(len1)` loop over the enumerated characters of
`s1`, threading the `s2_matches` flags. -/
def greedyGoL (s2 : Str) (d : Nat) : List (Nat × Char) → List Bool → List (Nat × Nat)
  | [], _ => []
  | (i, c) :: rest, m2 =>
    match findMatchJ c s2 m2 (i - d) (min (i + d + 1) s2.length) with
    | some j => (i, j) :: greedyGoL s2 d rest (m2.set j true)
    | none => greedyGoL s2 d rest m2

/-- All matched index pairs of the Jaro matching loop. -/
def greedyPairs (s1 s2 : Str) : List (Nat × Nat) :=
  greedyGoL s2 (matchDistance s1.length s2.length) s1.enum
    (List.replicate s2.length false)

/-- Ascending list of matched `s2` positions: the source's `while not
s2_matches[k]: k += 1` walk enumerates exactly these, in this order. -/
def matchedSeconds (s2len : Nat) (L : List (Nat × Nat)) : List Nat :=
  (List.range s2len).filter (fun q => L.any (fun pq => pq.2 == q))

/-- The source's `transpositions` counter: zip the matched characters of `s1`
(in `s1` order) against the matched characters of `s2` (in `s2` order) and
count disagreements. -/
def transpositionsOf (s1 s2 : Str) (L : List (Nat × Nat)) : Nat :=
  ((L.map (fun pq => s1.getD pq.1 'A')).zip
      ((matchedSeconds s2.length L).map (fun q => s2.getD q 'A'))).countP
    (fun ab => !(ab.1 == ab.2))

/-- The Jaro similarity as computed by the source (0 when there are no
matches), over already-normalised strings. -/
def jaroOf (s1 s2 : Str) : ℚ :=
  let L := greedyPairs s1 s2
  if L.length = 0 then 0
  else
    let m : ℚ := L.length
    let t : ℚ := transpositionsOf s1 s2 L
    (m / s1.length + m / s2.length + (m - t / 2) / m) / 3

/-- The source's prefix factor: `sum(1 for i in range(min(4, len1, len2)) if
s1[i] == s2[i])` — the number of agreeing positions among the first four,
not a contiguous common-prefix length. -/
def prefixBoostCount (s1 s2 : Str) : Nat :=
  (List.range (min 4 (min s1.length s2.length))).countP
    (fun i => s1.getD i 'A' == s2.getD i 'A')

/-- The length of the (contiguous) common prefix of two strings, as the
specification's `commonPrefixLen` reads; used to state claim C5. -/
def commonPrefixLen : Str → Str → Nat
  | a :: s, b :: t => if a = b then commonPrefixLen s t + 1 else 0
  | _, _ => 0

/-- `calculate_name_similarity` from `scripts/assign_master_ids.py`. -/
def calculate_name_similarity (n1 n2 : Str) : ℚ :=
  if n1 = [] || n2 = [] then 0
  else
    let s1 := normName n1
    let s2 := normName n2
    if s1 = s2 then 1
    else if s1.length = 0 || s2.length = 0 then 0
    else if (greedyPairs s1 s2).length = 0 then 0
    else
      let jaro := jaroOf s1 s2
      jaro + (prefixBoostCount s1 s2 : ℚ) * (1 / 10) * (1 - jaro)

theorem calculate_name_similarity_john_jim :
    calculate_name_similarity (strL "JOHN") (strL "JIM") = 23 / 40 := by
  with_unfolding_all decide

theorem calculate_name_similarity_abcd_abxd :
    calculate_name_similarity (strL "ABCD") (strL "ABXD") = 53 / 60 := by
  with_unfolding_all decide

/-! ### Donor records, matching and master-id assignment -/

/-- `DonorRecord` from `scripts/assign_master_ids.py`.  The Python field
`prefix` is called `pfx` here because `prefix` is reserved in Lean. -/
structure DonorRecord where
  id : Int
  pfx : Str
  first_name : Str
  middle_name : Str
  last_name : Str
  suffix : Str
  street_address : Str
  city : Str
  state : Str
  zipcode : Str
  master_person_id : Option Str := none
deriving DecidableEq, Inhabited

/-- The components dictionary passed to `generate_master_id`; the four keys
the function reads. -/
structure Components where
  last_name : Str
  first_name : Str
  zip : Str
  street_num : Str
deriving DecidableEq

/-- `generate_master_id` from `scripts/assign_master_ids.py`. -/
def generate_master_id (c : Components) : Str :=
  let key := normName c.last_name ++ '|' ::
    ((normName c.first_name).take 3 ++ '|' :: (c.zip.take 5 ++ '|' :: c.street_num))
  strL "MP_" ++ upperStr ((sha256hex (utf8Encode key)).take 12)

/-- `create_blocking_key` from `scripts/assign_master_ids.py`. -/
def create_blocking_key (last_name zipcode first_initial : Str) : Str :=
  (normName last_name).take 5 ++ '|' ::
    ((if zipcode = [] then [] else (normalize_zip zipcode).take 3) ++ '|' ::
      (upperStr first_initial).take 1)

/-- `match_records` from `scripts/assign_master_ids.py`. -/
def match_records (r1 r2 : DonorRecord) : Bool × ℚ :=
  if upperStr r1.last_name ≠ upperStr r2.last_name then (false, 0)
  else
    let fn_sim := calculate_name_similarity r1.first_name r2.first_name
    let zip_match := normalize_zip r1.zipcode = normalize_zip r2.zipcode
    let sn1 := extract_street_number r1.street_address
    let sn2 := extract_street_number r2.street_address
    let street_match := sn1 = sn2 ∧ sn1 ≠ []
    let score := (if fn_sim ≥ 9 / 10 then (2 : ℚ) / 5
        else if fn_sim ≥ 4 / 5 then 3 / 10 else 0) +
      (if zip_match then 3 / 10 else 0) + (if street_match then 3 / 10 else 0)
    (decide (score ≥ 3 / 5), score)

/-- The components dictionary built for a seed record inside
`assign_master_ids`. -/
def componentsOf (r : DonorRecord) : Components :=
  ⟨r.last_name, r.first_name, r.zipcode, extract_street_number r.street_address⟩

/-- The blocking key computed for a record inside `assign_master_ids`
(`r.first_name[:1] if r.first_name else ''`). -/
def recBlockKey (r : DonorRecord) : Str :=
  create_blocking_key r.last_name r.zipcode (r.first_name.take 1)

/-- `blocks[key].append(i)` on an insertion-ordered association list, as
Python's `defaultdict` over an insertion-ordered `dict` behaves. -/
def addToBlocks : List (Str × List Nat) → Str → Nat → List (Str × List Nat)
  | [], k, i => [(k, [i])]
  | (k', l) :: rest, k, i =>
    if k' = k then (k', l ++ [i]) :: rest else (k', l) :: addToBlocks rest k i

/-- The block-building loop of `assign_master_ids`, collecting record
positions per blocking key. -/
def buildBlocks (rs : List DonorRecord) : List (Str × List Nat) :=
  rs.enum.foldl (fun bs ir => addToBlocks bs (recBlockKey ir.2) ir.1) []

/-- Mutable state of the assignment loops: the `assigned` set of record
`id` values, and the `master_person_id` writes keyed by record position. -/
structure AState where
  assigned : List Int
  masters : List (Nat × Str)
deriving DecidableEq

/-- The inner `for other in block[i+1:]` propagation loop. -/
def propagate (rs : List DonorRecord) (seed : DonorRecord) (mid : Str)
    (js : List Nat) (st : AState) : AState :=
  js.foldl
    (fun st j =>
      let rj := rs.getD j default
      if rj.id ∉ st.assigned ∧ (match_records seed rj).1 then
        ⟨st.assigned ++ [rj.id], st.masters ++ [(j, mid)]⟩
      else st)
    st

/-- The `for i, r in enumerate(block)` loop of `assign_master_ids`. -/
def processBlock (rs : List DonorRecord) : List Nat → AState → AState
  | [], st => st
  | i :: rest, st =>
    let r := rs.getD i default
    if r.id ∈ st.assigned then processBlock rs rest st
    else
      let mid := generate_master_id (componentsOf r)
      let st1 : AState := ⟨st.assigned ++ [r.id], st.masters ++ [(i, mid)]⟩
      processBlock rs rest (propagate rs r mid rest st1)

/-- First `master_person_id` write recorded for position `i`, if any. -/
def lookupMaster (ms : List (Nat × Str)) (i : Nat) : Option Str :=
  (ms.find? (fun p => p.1 == i)).map (fun p => p.2)

/-- `assign_master_ids` from `scripts/assign_master_ids.py`.  The source
mutates records in place and returns the same list; here the writes are
collected and applied to the input list positionally. -/
def assign_master_ids (rs : List DonorRecord) : List DonorRecord :=
  let st := (buildBlocks rs).foldl (fun st b => processBlock rs b.2 st) ⟨[], []⟩
  rs.enum.map (fun ir =>
    match lookupMaster st.masters ir.1 with
    | some m => { ir.2 with master_person_id := some m }
    | none => ir.2)

/-! ### Claims C2, C3, C9, C1 -/

/-- Claim C2 (amended): `generate_master_id` is a pure deterministic function
of the *normalised* canonical key — two components maps with identical
(upper-stripped `last_name`, first three characters of the upper-stripped
`first_name`, `zip[:5]`, `street_number`) yield the identical id, and that id
is `MP_` followed by the first 12 hex characters, upper-cased, of the SHA-256
digest of the pipe-joined normalised key. -/
theorem generate_master_id_normalized_key (c1 c2 : Components)
    (hl : normName c1.last_name = normName c2.last_name)
    (hf : (normName c1.first_name).take 3 = (normName c2.first_name).take 3)
    (hz : c1.zip.take 5 = c2.zip.take 5)
    (hs : c1.street_num = c2.street_num) :
    generate_master_id c1 = generate_master_id c2 ∧
    generate_master_id c1 = strL "MP_" ++ upperStr ((sha256hex (utf8Encode
      (normName c1.last_name ++ '|' :: ((normName c1.first_name).take 3 ++ '|' ::
        (c1.zip.take 5 ++ '|' :: c1.street_num))))).take 12) := by
  unfold generate_master_id
  rw [hl, hf, hz, hs]
  exact ⟨rfl, rfl⟩

theorem generate_master_id_normalized_key_witness :
    (normName (strL "smith ") = normName (strL "SMITH") ∧
      (normName (strL " johnathan")).take 3 = (normName (strL "JOHNNY")).take 3 ∧
      (strL "2760199").take 5 = (strL "27601").take 5 ∧
      strL "123" = strL "123") ∧
    generate_master_id ⟨strL "smith ", strL " johnathan", strL "2760199", strL "123"⟩ =
      generate_master_id ⟨strL "SMITH", strL "JOHNNY", strL "27601", strL "123"⟩ := by
  refine ⟨⟨by decide, by decide, by decide, rfl⟩, ?_⟩
  exact (generate_master_id_normalized_key _ _ (by decide) (by decide) (by decide) rfl).1

/-- Claim C2, counterexample to the claim as stated: the id is *not* the
SHA-256 of the pipe-join of the raw components — the code upper-cases and
strips `last_name` and `first_name` before hashing, so for lowercase input
the claimed formula disagrees with the code. -/
theorem generate_master_id_raw_key_counterexample :
    generate_master_id ⟨strL "smith", strL "john", strL "27601", strL "123"⟩ ≠
      strL "MP_" ++ upperStr ((sha256hex (utf8Encode
        (strL "smith" ++ '|' :: ((strL "john").take 3 ++ '|' ::
          ((strL "27601").take 5 ++ '|' :: strL "123"))))).take 12) := by
  decide

/-- Claim C3: `match_records` returns non-match with score 0 when the last
names differ case-insensitively; otherwise the score is the sum of the
first-name band (0.4 if similarity ≥ 0.9, else 0.3 if ≥ 0.8, else 0), 0.3
for equal normalised ZIPs, and 0.3 for equal non-empty leading street
numbers, and the decision is exactly `score ≥ 0.6`. -/
theorem match_records_spec (r1 r2 : DonorRecord) :
    (upperStr r1.last_name ≠ upperStr r2.last_name →
      match_records r1 r2 = (false, 0)) ∧
    (upperStr r1.last_name = upperStr r2.last_name →
      match_records r1 r2 =
        (decide ((if calculate_name_similarity r1.first_name r2.first_name ≥ 9 / 10
              then (2 : ℚ) / 5
              else if calculate_name_similarity r1.first_name r2.first_name ≥ 4 / 5
              then 3 / 10 else 0) +
            (if normalize_zip r1.zipcode = normalize_zip r2.zipcode then 3 / 10 else 0) +
            (if extract_street_number r1.street_address =
                  extract_street_number r2.street_address ∧
                extract_street_number r1.street_address ≠ [] then 3 / 10 else 0) ≥ 3 / 5),
          (if calculate_name_similarity r1.first_name r2.first_name ≥ 9 / 10
              then (2 : ℚ) / 5
              else if calculate_name_similarity r1.first_name r2.first_name ≥ 4 / 5
              then 3 / 10 else 0) +
            (if normalize_zip r1.zipcode = normalize_zip r2.zipcode then 3 / 10 else 0) +
            (if extract_street_number r1.street_address =
                  extract_street_number r2.street_address ∧
                extract_street_number r1.street_address ≠ [] then 3 / 10 else 0))) := by
  constructor
  · intro h
    unfold match_records
    rw [if_pos h]
  · intro h
    unfold match_records
    rw [if_neg (by simpa using h)]

/-- The demo records 1 and 2 of the source's `__main__` block. -/
def demoRec1 : DonorRecord :=
  ⟨1, [], strL "JOHN", strL "A", strL "SMITH", [], strL "123 Main St",
    strL "Raleigh", strL "NC", strL "27601", none⟩

/-- The demo record 2 of the source's `__main__` block. -/
def demoRec2 : DonorRecord :=
  ⟨2, strL "MR", strL "JOHN", strL "ADAM", strL "SMITH", [], strL "123 Main Street",
    strL "Raleigh", strL "NC", strL "27601", none⟩

theorem match_records_spec_witness :
    upperStr demoRec1.last_name = upperStr demoRec2.last_name ∧
    match_records demoRec1 demoRec2 =
      (decide ((if calculate_name_similarity demoRec1.first_name demoRec2.first_name ≥ 9 / 10
            then (2 : ℚ) / 5
            else if calculate_name_similarity demoRec1.first_name demoRec2.first_name ≥ 4 / 5
            then 3 / 10 else 0) +
          (if normalize_zip demoRec1.zipcode = normalize_zip demoRec2.zipcode then 3 / 10 else 0) +
          (if extract_street_number demoRec1.street_address =
                extract_street_number demoRec2.street_address ∧
              extract_street_number demoRec1.street_address ≠ [] then 3 / 10 else 0) ≥ 3 / 5),
        (if calculate_name_similarity demoRec1.first_name demoRec2.first_name ≥ 9 / 10
            then (2 : ℚ) / 5
            else if calculate_name_similarity demoRec1.first_name demoRec2.first_name ≥ 4 / 5
            then 3 / 10 else 0) +
          (if normalize_zip demoRec1.zipcode = normalize_zip demoRec2.zipcode then 3 / 10 else 0) +
          (if extract_street_number demoRec1.street_address =
                extract_street_number demoRec2.street_address ∧
              extract_street_number demoRec1.street_address ≠ [] then 3 / 10 else 0)) :=
  ⟨by decide, (match_records_spec demoRec1 demoRec2).2 (by decide)⟩

/-- Remove the one mutable field, for frame statements. -/
def clearMaster (r : DonorRecord) : DonorRecord := { r with master_person_id := none }

/-- Claim C9: `assign_master_ids` returns the same records in the same
order — no record added, removed or reordered, and every field other than
`master_person_id` is unchanged. -/
theorem assign_master_ids_frame (rs : List DonorRecord) :
    (assign_master_ids rs).map clearMaster = rs.map clearMaster := by
  unfold assign_master_ids
  rw [List.map_map]
  have h1 : ∀ p : Nat × DonorRecord,
      (clearMaster ∘ fun ir =>
        match lookupMaster ((buildBlocks rs).foldl
            (fun st b => processBlock rs b.2 st) ⟨[], []⟩).masters ir.1 with
        | some m => { ir.2 with master_person_id := some m }
        | none => ir.2) p = clearMaster p.2 := by
    intro p
    cases h : lookupMaster ((buildBlocks rs).foldl
        (fun st b => processBlock rs b.2 st) ⟨[], []⟩).masters p.1 <;>
      simp [Function.comp, h, clearMaster]
  rw [List.map_congr_left fun p _ => h1 p]
  have h2 : rs.enum.map (fun p => clearMaster p.2) =
      (rs.enum.map Prod.snd).map clearMaster := by
    rw [List.map_map]
    rfl
  rw [h2, List.enum_map_snd]

/-- Claim C1 (amended): reordering changes which record of a matching group
seeds, and every matched record receives the *seed's* content-addressed id
`generate_master_id(components of the seed)`; hence reordering the input can
change the id value records end up with, and leaves it unchanged exactly
when the alternative seeds share the same canonical key hash. -/
theorem assign_master_ids_seed_content_addressed (r1 r2 : DonorRecord)
    (hk : recBlockKey r1 = recBlockKey r2)
    (h12 : (match_records r1 r2).1 = true)
    (h21 : (match_records r2 r1).1 = true)
    (hid : r1.id ≠ r2.id) :
    (assign_master_ids [r1, r2]).map (fun r => r.master_person_id) =
      [some (generate_master_id (componentsOf r1)),
        some (generate_master_id (componentsOf r1))] ∧
    (assign_master_ids [r2, r1]).map (fun r => r.master_person_id) =
      [some (generate_master_id (componentsOf r2)),
        some (generate_master_id (componentsOf r2))] := by
  have hne : r2.id ≠ r1.id := fun h => hid h.symm
  constructor
  · unfold assign_master_ids buildBlocks
    simp only [List.enum, List.enumFrom, List.foldl]
    rw [hk]
    simp [addToBlocks, processBlock, propagate, lookupMaster, List.find?,
      List.getD, hne, hid, h12, h21]
  · unfold assign_master_ids buildBlocks
    simp only [List.enum, List.enumFrom, List.foldl]
    rw [hk]
    simp [addToBlocks, processBlock, propagate, lookupMaster, List.find?,
      List.getD, hne, hid, h12, h21]

/-- Concrete record: JOHN SMITH at 123 MAIN ST, 27601. -/
def recJohn : DonorRecord :=
  ⟨1, [], strL "JOHN", [], strL "SMITH", [], strL "123 MAIN ST",
    strL "RALEIGH", strL "NC", strL "27601", none⟩

/-- Concrete record: JIM SMITH at 123 OAK AVE, 27601 — same block and a
match with `recJohn` (ZIP + street number alone reach the 0.6 threshold),
but a different canonical key (`JIM` vs `JOH`). -/
def recJim : DonorRecord :=
  ⟨2, [], strL "JIM", [], strL "SMITH", [], strL "123 OAK AVE",
    strL "RALEIGH", strL "NC", strL "27601", none⟩

theorem assign_master_ids_seed_content_addressed_witness :
    (recBlockKey recJohn = recBlockKey recJim ∧
      (match_records recJohn recJim).1 = true ∧
      (match_records recJim recJohn).1 = true ∧
      recJohn.id ≠ recJim.id) ∧
    (assign_master_ids [recJohn, recJim]).map (fun r => r.master_person_id) =
      [some (generate_master_id (componentsOf recJohn)),
        some (generate_master_id (componentsOf recJohn))] :=
  ⟨⟨by decide, by with_unfolding_all decide, by with_unfolding_all decide,
      by decide⟩,
    (assign_master_ids_seed_content_addressed recJohn recJim (by decide)
      (by with_unfolding_all decide) (by with_unfolding_all decide) (by decide)).1⟩

/-- Claim C1, counterexample to the claim as stated: the record with
`id = 1` ends up with a different `master_person_id` value depending on the
input order, because the seed's first name enters the hashed canonical key
(`SMITH|JOH|27601|123` vs `SMITH|JIM|27601|123`). -/
theorem assign_master_ids_order_changes_id_value :
    ((assign_master_ids [recJohn, recJim]).getD 0 default).master_person_id ≠
      ((assign_master_ids [recJim, recJohn]).getD 1 default).master_person_id := by
  with_unfolding_all decide

/-! ### Character-level facts about the ASCII upper-casing model -/

theorem charToNat_ofNat (n : Nat) (h : n < 55296) : (Char.ofNat n).toNat = n := by
  have hv : Nat.isValidChar n := Or.inl h
  simp [Char.ofNat, hv, Char.toNat, Char.ofNatAux]
  rfl

theorem charEq_iff (a b : Char) : a = b ↔ a.toNat = b.toNat := by
  constructor
  · intro h
    rw [h]
  · intro h
    apply Char.ext
    apply UInt32.eq_of_toBitVec_eq
    apply BitVec.eq_of_toNat_eq
    exact h

theorem upperChar_eq_of_lower (c : Char) (h1 : 97 ≤ c.toNat) (h2 : c.toNat ≤ 122) :
    upperChar c = Char.ofNat (c.toNat - 32) := by
  unfold upperChar
  rw [if_pos]
  simp only [Bool.and_eq_true, decide_eq_true_eq]
  exact ⟨h1, h2⟩

theorem upperChar_eq_of_not_lower (c : Char) (h : ¬(97 ≤ c.toNat ∧ c.toNat ≤ 122)) :
    upperChar c = c := by
  unfold upperChar
  rw [if_neg]
  simp only [Bool.and_eq_true, decide_eq_true_eq]
  exact h

theorem upperChar_toNat (c : Char) :
    (upperChar c).toNat =
      if 97 ≤ c.toNat ∧ c.toNat ≤ 122 then c.toNat - 32 else c.toNat := by
  by_cases h : 97 ≤ c.toNat ∧ c.toNat ≤ 122
  · rw [upperChar_eq_of_lower c h.1 h.2, if_pos h, charToNat_ofNat _ (by omega)]
  · rw [upperChar_eq_of_not_lower c h, if_neg h]

theorem upperChar_idem (c : Char) : upperChar (upperChar c) = upperChar c := by
  by_cases h : 97 ≤ c.toNat ∧ c.toNat ≤ 122
  · apply upperChar_eq_of_not_lower
    rw [upperChar_toNat, if_pos h]
    omega
  · rw [upperChar_eq_of_not_lower c h]
    exact upperChar_eq_of_not_lower c h

theorem isWsChar_iff (c : Char) :
    isWsChar c = true ↔
      c.toNat = 32 ∨ c.toNat = 9 ∨ c.toNat = 10 ∨ c.toNat = 13 ∨
        c.toNat = 11 ∨ c.toNat = 12 := by
  unfold isWsChar
  simp only [Bool.or_eq_true, decide_eq_true_eq, charEq_iff,
    show (' ' : Char).toNat = 32 from rfl, show ('\t' : Char).toNat = 9 from rfl,
    show ('\n' : Char).toNat = 10 from rfl, show ('\r' : Char).toNat = 13 from rfl,
    show ('\x0b' : Char).toNat = 11 from rfl, show ('\x0c' : Char).toNat = 12 from rfl]
  tauto

theorem isWsChar_upperChar (c : Char) : isWsChar (upperChar c) = isWsChar c := by
  by_cases h : 97 ≤ c.toNat ∧ c.toNat ≤ 122
  · have h1 : isWsChar (upperChar c) = false := by
      rw [← Bool.not_eq_true, isWsChar_iff, upperChar_toNat, if_pos h]
      omega
    have h2 : isWsChar c = false := by
      rw [← Bool.not_eq_true, isWsChar_iff]
      omega
    rw [h1, h2]
  · rw [upperChar_eq_of_not_lower c h]

/-! ### String-level normalisation facts -/

theorem stripStr_eq_rdropWhile (s : Str) :
    stripStr s = (s.dropWhile isWsChar).rdropWhile isWsChar := rfl

theorem rdropWhile_cons_of_ne (p : Char → Bool) (a : Char) (t : Str)
    (h : t.rdropWhile p ≠ []) : (a :: t).rdropWhile p = a :: t.rdropWhile p := by
  have hne : (t.reverse.dropWhile p).isEmpty = false := by
    rw [List.isEmpty_eq_false_iff_exists_mem]
    rcases List.exists_mem_of_ne_nil _ h with ⟨x, hx⟩
    exact ⟨x, by simpa [List.rdropWhile] using hx⟩
  unfold List.rdropWhile
  rw [show (a :: t).reverse = t.reverse ++ [a] from by simp,
    List.dropWhile_append, if_neg (by simp [hne])]
  simp [List.rdropWhile]

theorem dropWhile_rdropWhile_comm (p : Char → Bool) (l : Str) :
    (l.rdropWhile p).dropWhile p = (l.dropWhile p).rdropWhile p := by
  induction l with
  | nil => rfl
  | cons a t ih =>
    by_cases h0 : t.rdropWhile p = []
    · have hall : ∀ x ∈ t, p x := List.rdropWhile_eq_nil_iff.mp h0
      by_cases ha : p a = true
      · have h1 : (a :: t).rdropWhile p = [] := by
          rw [List.rdropWhile_eq_nil_iff]
          intro x hx
          rcases List.mem_cons.mp hx with rfl | hx
          · exact ha
          · exact hall x hx
        have h2 : (a :: t).dropWhile p = t.dropWhile p := by
          simp [List.dropWhile_cons, ha]
        have h3 : t.dropWhile p = [] := by
          rw [List.dropWhile_eq_nil_iff]
          exact fun x hx => hall x hx
        rw [h1, h2, h3]
        rfl
      · have h1 : (a :: t).rdropWhile p = [a] := by
          unfold List.rdropWhile
          rw [show (a :: t).reverse = t.reverse ++ [a] from by simp,
            List.dropWhile_append]
          rw [if_pos (by
            rw [List.isEmpty_iff]
            rw [List.dropWhile_eq_nil_iff]
            intro x hx
            exact hall x (by simpa using hx))]
          simp [List.dropWhile_cons, ha]
        have h2 : (a :: t).dropWhile p = a :: t := by
          simp [List.dropWhile_cons, ha]
        rw [h1, h2]
        simp [List.dropWhile_cons, ha, h1]
    · rw [rdropWhile_cons_of_ne p a t h0]
      by_cases ha : p a = true
      · have h2 : (a :: t).dropWhile p = t.dropWhile p := by
          simp [List.dropWhile_cons, ha]
        rw [h2, ← ih]
        simp [List.dropWhile_cons, ha]
      · have h2 : (a :: t).dropWhile p = a :: t := by
          simp [List.dropWhile_cons, ha]
        rw [h2, rdropWhile_cons_of_ne p a t h0]
        simp [List.dropWhile_cons, ha]

theorem stripStr_idem (s : Str) : stripStr (stripStr s) = stripStr s := by
  rw [stripStr_eq_rdropWhile, stripStr_eq_rdropWhile,
    dropWhile_rdropWhile_comm, List.dropWhile_idempotent,
    List.rdropWhile_idempotent]

theorem upperStr_idem (s : Str) : upperStr (upperStr s) = upperStr s := by
  unfold upperStr
  rw [List.map_map]
  exact List.map_congr_left fun c _ => upperChar_idem c

theorem dropWhile_upperStr (s : Str) :
    (upperStr s).dropWhile isWsChar = upperStr (s.dropWhile isWsChar) := by
  unfold upperStr
  rw [List.dropWhile_map,
    show isWsChar ∘ upperChar = isWsChar from funext isWsChar_upperChar]

theorem rdropWhile_upperStr (s : Str) :
    (upperStr s).rdropWhile isWsChar = upperStr (s.rdropWhile isWsChar) := by
  unfold List.rdropWhile
  rw [show (upperStr s).reverse = upperStr s.reverse from by
      unfold upperStr
      exact (List.map_reverse _ _).symm]
  rw [dropWhile_upperStr]
  unfold upperStr
  exact (List.map_reverse _ _).symm

theorem stripStr_upperStr_comm (s : Str) :
    stripStr (upperStr s) = upperStr (stripStr s) := by
  rw [stripStr_eq_rdropWhile, stripStr_eq_rdropWhile,
    dropWhile_upperStr, rdropWhile_upperStr]

theorem normName_idem (s : Str) : normName (normName s) = normName s := by
  unfold normName
  calc stripStr (upperStr (stripStr (upperStr s)))
      = stripStr (stripStr (upperStr (upperStr s))) := by
        rw [← stripStr_upperStr_comm]
    _ = stripStr (stripStr (upperStr s)) := by rw [upperStr_idem]
    _ = stripStr (upperStr s) := stripStr_idem _

/-- Claim C10 (amended): `calculate_name_similarity` is invariant under
pre-normalising its inputs (upper-case + trim) for every pair except when
both inputs are non-empty strings consisting solely of whitespace (there the
raw pair hits the `s1 == s2` early return with value 1 while the normalised
pair hits the emptiness guard with value 0); and any two non-empty names
with equal upper-cased trimmed forms score exactly 1. -/
theorem calculate_name_similarity_norm_invariant (a b : Str) :
    (¬(a ≠ [] ∧ b ≠ [] ∧ normName a = [] ∧ normName b = []) →
      calculate_name_similarity a b =
        calculate_name_similarity (normName a) (normName b)) ∧
    (a ≠ [] → b ≠ [] → normName a = normName b →
      calculate_name_similarity a b = 1) := by
  constructor
  · intro h
    by_cases ha : a = []
    · subst ha
      simp [calculate_name_similarity, normName, stripStr, upperStr]
    · by_cases hb : b = []
      · subst hb
        simp [calculate_name_similarity, normName, stripStr, upperStr]
      · by_cases hna : normName a = []
        · have hnb : normName b ≠ [] := fun hnb => h ⟨ha, hb, hna, hnb⟩
          simp [calculate_name_similarity, ha, hb, hna, hnb, Ne.symm hnb]
        · by_cases hnb : normName b = []
          · simp [calculate_name_similarity, ha, hb, hna, hnb]
          · simp [calculate_name_similarity, ha, hb, hna, hnb, normName_idem]
  · intro ha hb heq
    simp [calculate_name_similarity, ha, hb, heq]

theorem calculate_name_similarity_norm_invariant_witness :
    (¬(strL "  john " ≠ [] ∧ strL "JOHN" ≠ [] ∧
        normName (strL "  john ") = [] ∧ normName (strL "JOHN") = []) ∧
      calculate_name_similarity (strL "  john ") (strL "JOHN") =
        calculate_name_similarity (normName (strL "  john ")) (normName (strL "JOHN"))) ∧
    (strL "  john " ≠ [] ∧ strL "JOHN" ≠ [] ∧
      normName (strL "  john ") = normName (strL "JOHN") ∧
      calculate_name_similarity (strL "  john ") (strL "JOHN") = 1) :=
  ⟨⟨by decide, (calculate_name_similarity_norm_invariant _ _).1 (by decide)⟩,
    ⟨by decide, by decide, by decide,
      (calculate_name_similarity_norm_invariant _ _).2 (by decide) (by decide)
        (by decide)⟩⟩

/-- Claim C10, counterexample to the claim as stated: for two non-empty
all-whitespace inputs the raw call returns 1.0 (they are equal after
upper-casing, before trimming) while the call on the trimmed forms returns
0.0 (empty-input guard). -/
theorem calculate_name_similarity_whitespace_counterexample :
    calculate_name_similarity [' '] [' '] ≠
      calculate_name_similarity (normName [' ']) (normName [' ']) := by
  with_unfolding_all decide

/-! ### Alias overrides (`scripts/apply_alias_overrides.py`)

The script issues one SQL statement:
`UPDATE nc_boe_donations_raw d SET master_person_id = a.master_person_id
 FROM person_aliases a
 WHERE UPPER(TRIM(d.donor_name)) = UPPER(TRIM(a.alias_name))
   AND d.master_person_id IS DISTINCT FROM a.master_person_id`
and reports `cur.rowcount`.  Each donation row is updated at most once per
statement; when several alias rows satisfy the WHERE clause for one donation
row, PostgreSQL uses an unspecified one — modelled here deterministically as
the first such alias in table order.  `IS DISTINCT FROM` is inequality of
nullable values, i.e. inequality of `Option Str`. -/

structure AliasRow where
  alias_name : Str
  canonical_name : Str
  master_person_id : Option Str
deriving DecidableEq

structure DonationRow where
  donor_name : Str
  master_person_id : Option Str
deriving DecidableEq

/-- `UPPER(TRIM(x))`. -/
def sqlNorm (s : Str) : Str := upperStr (stripStr s)

/-- The first alias row satisfying the WHERE clause against `d`. -/
def aliasCandidate (aliases : List AliasRow) (d : DonationRow) : Option AliasRow :=
  aliases.find? (fun a => decide (sqlNorm a.alias_name = sqlNorm d.donor_name ∧
    d.master_person_id ≠ a.master_person_id))

/-- Effect of the UPDATE on one donation row, with its write count. -/
def applyAliasRow (aliases : List AliasRow) (d : DonationRow) : DonationRow × Nat :=
  match aliasCandidate aliases d with
  | some a => ({ d with master_person_id := a.master_person_id }, 1)
  | none => (d, 0)

/-- `apply_alias_overrides`: the updated table and the reported row count. -/
def apply_alias_overrides (rows : List DonationRow) (aliases : List AliasRow) :
    List DonationRow × Nat :=
  (rows.map (fun d => (applyAliasRow aliases d).1),
    (rows.map (fun d => (applyAliasRow aliases d).2)).sum)

/-- Claim C6 (amended): provided no two alias rows carry the same
case-normalised alias name with different target ids, applying the alias
override pass twice yields the same assignments as applying it once, and the
second application performs zero writes.  (With conflicting duplicate alias
names the SQL flips the id on every pass — see the counterexample.) -/
theorem apply_alias_overrides_idempotent (rows : List DonationRow)
    (aliases : List AliasRow)
    (hcons : ∀ a1 ∈ aliases, ∀ a2 ∈ aliases,
      sqlNorm a1.alias_name = sqlNorm a2.alias_name →
      a1.master_person_id = a2.master_person_id) :
    apply_alias_overrides (apply_alias_overrides rows aliases).1 aliases =
      ((apply_alias_overrides rows aliases).1, 0) := by
  have key : ∀ d, applyAliasRow aliases ((applyAliasRow aliases d).1) =
      ((applyAliasRow aliases d).1, 0) := by
    intro d
    rcases hfind : aliasCandidate aliases d with - | a
    · simp [applyAliasRow, hfind]
    · have ha_mem : a ∈ aliases := List.mem_of_find?_eq_some hfind
      have ha_pred := List.find?_some hfind
      rw [decide_eq_true_eq] at ha_pred
      have hnone : aliasCandidate aliases
          ({ d with master_person_id := a.master_person_id }) = none := by
        apply List.find?_eq_none.mpr
        intro b hb
        rw [Bool.not_eq_true, decide_eq_false_iff_not]
        rintro ⟨hbn, hbm⟩
        have hbn' : sqlNorm b.alias_name = sqlNorm d.donor_name := hbn
        exact hbm (hcons a ha_mem b hb (ha_pred.1.trans hbn'.symm))
      simp [applyAliasRow, hfind, hnone]
  unfold apply_alias_overrides
  refine Prod.ext ?_ ?_
  · show List.map _ _ = List.map _ _
    rw [List.map_map]
    apply List.map_congr_left
    intro d _
    show (applyAliasRow aliases ((applyAliasRow aliases d).1)).1 =
      (applyAliasRow aliases d).1
    rw [key d]
  · show ((List.map _ _).map _).sum = 0
    apply List.sum_eq_zero
    intro x hx
    rw [List.map_map] at hx
    rcases List.mem_map.mp hx with ⟨d, -, rfl⟩
    show (applyAliasRow aliases ((applyAliasRow aliases d).1)).2 = 0
    rw [key d]

theorem apply_alias_overrides_idempotent_witness :
    (∀ a1 ∈ [AliasRow.mk (strL "JOHNNY") (strL "JOHN") (some (strL "MP_1"))],
      ∀ a2 ∈ [AliasRow.mk (strL "JOHNNY") (strL "JOHN") (some (strL "MP_1"))],
      sqlNorm a1.alias_name = sqlNorm a2.alias_name →
      a1.master_person_id = a2.master_person_id) ∧
    apply_alias_overrides
        (apply_alias_overrides [⟨strL "Johnny ", none⟩, ⟨strL "BOB", some (strL "MP_2")⟩]
          [AliasRow.mk (strL "JOHNNY") (strL "JOHN") (some (strL "MP_1"))]).1
        [AliasRow.mk (strL "JOHNNY") (strL "JOHN") (some (strL "MP_1"))] =
      ((apply_alias_overrides [⟨strL "Johnny ", none⟩, ⟨strL "BOB", some (strL "MP_2")⟩]
          [AliasRow.mk (strL "JOHNNY") (strL "JOHN") (some (strL "MP_1"))]).1, 0) :=
  ⟨by decide, apply_alias_overrides_idempotent _ _ (by decide)⟩

/-- Two aliases with the same name but conflicting target ids. -/
def cexAliases : List AliasRow :=
  [⟨strL "JOHN", strL "JOHN", some (strL "MP_A")⟩,
   ⟨strL "JOHN", strL "JOHN", some (strL "MP_B")⟩]

/-- Claim C6, counterexample to the claim as stated: with two alias rows
sharing the alias name `JOHN` but targeting different ids, the second pass
changes the record again and performs a write (the id keeps flipping between
the two targets), so idempotence fails for arbitrary alias tables. -/
theorem apply_alias_overrides_conflicting_counterexample :
    (apply_alias_overrides
        (apply_alias_overrides [⟨strL "JOHN", none⟩] cexAliases).1 cexAliases).1 ≠
      (apply_alias_overrides [⟨strL "JOHN", none⟩] cexAliases).1 ∧
    (apply_alias_overrides
        (apply_alias_overrides [⟨strL "JOHN", none⟩] cexAliases).1 cexAliases).2 ≠ 0 := by
  constructor
  · decide
  · decide

/-! ### Address normalisation (`scripts/normalize_addresses.py`) and the
household key (`scripts/household_id_builder.py`) -/

/-- Replace each maximal whitespace run by a single space
(`re.sub(r'\s+', ' ', ...)`), via structural fuel recursion. -/
def collapseWsGo : Nat → Str → Str
  | 0, _ => []
  | _, [] => []
  | fuel + 1, c :: cs =>
    if isWsChar c then ' ' :: collapseWsGo fuel (cs.dropWhile isWsChar)
    else c :: collapseWsGo fuel cs

def collapseWs (s : Str) : Str := collapseWsGo s.length s

/-- ASCII model of the regex word class `\w`. -/
def isWordChar (c : Char) : Bool := c.isAlphanum || c = '_'

def boundaryBefore : Option Char → Bool
  | none => true
  | some p => !isWordChar p

def boundaryAfter (pat s : Str) : Bool :=
  match s.drop pat.length with
  | [] => true
  | d :: _ => !isWordChar d

/-- `re.sub(r'\b' + pat + r'\b', rep, s)`: leftmost non-overlapping
whole-word replacement, scanning resumes after the matched portion of the
original string (so the previous character for the next boundary test is the
last character of the matched pattern). -/
def replaceWordGo (pat rep : Str) : Nat → Option Char → Str → Str
  | 0, _, _ => []
  | _, _, [] => []
  | fuel + 1, prev, c :: cs =>
    if boundaryBefore prev && List.isPrefixOf pat (c :: cs) &&
        boundaryAfter pat (c :: cs) then
      rep ++ replaceWordGo pat rep fuel (some (pat.reverse.headD 'A'))
        ((c :: cs).drop pat.length)
    else c :: replaceWordGo pat rep fuel (some c) cs

def replaceWord (pat rep s : Str) : Str :=
  if pat = [] then s else replaceWordGo pat rep s.length none s

/-- `STREET_ABBREVS` from `scripts/normalize_addresses.py`, in dict
insertion order. -/
def STREET_ABBREVS : List (Str × Str) :=
  [(strL "STREET", strL "ST"), (strL "AVENUE", strL "AVE"),
   (strL "BOULEVARD", strL "BLVD"), (strL "DRIVE", strL "DR"),
   (strL "LANE", strL "LN"), (strL "ROAD", strL "RD"),
   (strL "COURT", strL "CT"), (strL "CIRCLE", strL "CIR"),
   (strL "PLACE", strL "PL"), (strL "TERRACE", strL "TER"),
   (strL "TRAIL", strL "TRL"), (strL "HIGHWAY", strL "HWY"),
   (strL "PARKWAY", strL "PKWY"), (strL "WAY", strL "WAY"),
   (strL "NORTH", strL "N"), (strL "SOUTH", strL "S"),
   (strL "EAST", strL "E"), (strL "WEST", strL "W"),
   (strL "NORTHEAST", strL "NE"), (strL "NORTHWEST", strL "NW"),
   (strL "SOUTHEAST", strL "SE"), (strL "SOUTHWEST", strL "SW"),
   (strL "APARTMENT", strL "APT"), (strL "SUITE", strL "STE"),
   (strL "BUILDING", strL "BLDG"), (strL "FLOOR", strL "FL"),
   (strL "UNIT", strL "UNIT"), (strL "PO BOX", strL "PO BOX"),
   (strL "POST OFFICE BOX", strL "PO BOX")]

/-- `normalize_address` from `scripts/normalize_addresses.py`:
upper + strip, collapse whitespace, remove `.`/`,`/`#`, then whole-word
abbreviation replacement in table order. -/
def normalize_address (addr : Str) : Str :=
  if addr = [] then []
  else
    let a := stripStr (upperStr addr)
    let a := collapseWs a
    let a := a.filter (fun c => !(c == '.' || c == ',' || c == '#'))
    STREET_ABBREVS.foldl (fun a pr => replaceWord pr.1 pr.2 a) a

/-- `str.replace(pat, rep)`: all non-overlapping occurrences, left to
right. -/
def pyReplaceGo (pat rep : Str) : Nat → Str → Str
  | 0, _ => []
  | _, [] => []
  | fuel + 1, c :: cs =>
    if List.isPrefixOf pat (c :: cs) then
      rep ++ pyReplaceGo pat rep fuel ((c :: cs).drop pat.length)
    else c :: pyReplaceGo pat rep fuel cs

def pyReplace (s pat rep : Str) : Str :=
  if pat = [] then s else pyReplaceGo pat rep s.length s

/-- `str.split()`: split on whitespace runs, dropping empty pieces. -/
def splitWsGo : Nat → Str → List Str
  | 0, _ => []
  | _, [] => []
  | fuel + 1, c :: cs =>
    if isWsChar c then splitWsGo fuel cs
    else (c :: cs.takeWhile (fun x => !isWsChar x)) ::
      splitWsGo fuel (cs.dropWhile (fun x => !isWsChar x))

def splitWs (s : Str) : List Str := splitWsGo s.length s

/-- `' '.join(ws)`. -/
def joinWords (ws : List Str) : Str := List.intercalate [' '] ws

/-- `str(...).upper().strip()` applied to the street column in
`create_address_key`. -/
def hhStreetPre (street : Str) : Str := stripStr (upperStr street)

/-- The eight sequential `str.replace` suffix substitutions of
`create_address_key`, in source order. -/
def hhReplaces (s : Str) : Str :=
  [(strL " STREET", strL " ST"), (strL " AVENUE", strL " AVE"),
   (strL " DRIVE", strL " DR"), (strL " ROAD", strL " RD"),
   (strL " LANE", strL " LN"), (strL " COURT", strL " CT"),
   (strL " CIRCLE", strL " CIR"), (strL " BOULEVARD", strL " BLVD")].foldl
    (fun a pr => pyReplace a pr.1 pr.2) s

/-- The household builder's own street normalisation:
substring suffix replacement followed by `' '.join(s.split())`. -/
def hhStreetNorm (street : Str) : Str :=
  joinWords (splitWs (hhReplaces (hhStreetPre street)))

/-- `create_address_key` from `scripts/household_id_builder.py`. -/
def create_address_key (street city zip : Str) : Option Str :=
  let s := hhStreetPre street
  let c := stripStr (upperStr city)
  let z := stripStr (zip.take 5)
  if s = [] ∨ z = [] ∨ s = strL "NAN" ∨ z = strL "NAN" then none
  else some (hhStreetNorm street ++ '|' :: (c ++ '|' :: z))

/-- `str(uuid.UUID(bytes=b))`: lowercase hex of the 16 bytes in 8-4-4-4-12
grouping. -/
def uuidHex (bytes16 : List Nat) : Str :=
  let h := bytes16.foldr (fun b acc => byteHex b ++ acc) []
  h.take 8 ++ '-' :: ((h.drop 8).take 4 ++ '-' :: ((h.drop 12).take 4 ++
    '-' :: ((h.drop 16).take 4 ++ '-' :: h.drop 20)))

/-- `generate_household_id` from `scripts/household_id_builder.py`. -/
def generate_household_id (key : Str) : Str :=
  uuidHex ((sha256 (utf8Encode key)).take 16)

theorem generate_household_id_test :
    generate_household_id (strL "123 MAIN ST|RALEIGH|27601") =
      strL "d9865ee7-11eb-a16c-5629-1dafb0653ce8" := by
  decide

theorem normalize_address_test :
    normalize_address (strL "1000 West Trade Street Suite 100") =
      strL "1000 W TRADE ST STE 100" := by
  decide

/-- Claim C4 (amended): the household key applies the household builder's
*own* street normalisation (eight substring suffix replacements plus
whitespace re-joining), not §4.2's `normalize_address`; two records whose
streets agree under *that* normalisation and that share city and ZIP — for
example `123 Main Street` and `123 MAIN ST` — receive the same address key
and hence the same `household_id`.  Streets that agree only under §4.2 can
receive different household ids (see the counterexample). -/
theorem create_address_key_deterministic (s1 c1 z1 s2 c2 z2 : Str)
    (hstreet : hhStreetNorm s1 = hhStreetNorm s2)
    (hcity : stripStr (upperStr c1) = stripStr (upperStr c2))
    (hzip : stripStr (z1.take 5) = stripStr (z2.take 5))
    (hg1 : hhStreetPre s1 ≠ [] ∧ hhStreetPre s1 ≠ strL "NAN")
    (hg2 : hhStreetPre s2 ≠ [] ∧ hhStreetPre s2 ≠ strL "NAN")
    (hz1 : stripStr (z1.take 5) ≠ [] ∧ stripStr (z1.take 5) ≠ strL "NAN") :
    create_address_key s1 c1 z1 = create_address_key s2 c2 z2 ∧
    Option.map generate_household_id (create_address_key s1 c1 z1) =
      Option.map generate_household_id (create_address_key s2 c2 z2) := by
  have hkey : create_address_key s1 c1 z1 = create_address_key s2 c2 z2 := by
    unfold create_address_key
    rw [if_neg (by
      rintro (h | h | h | h)
      · exact hg1.1 h
      · exact hz1.1 h
      · exact hg1.2 h
      · exact hz1.2 h)]
    rw [if_neg (by
      rw [← hzip]
      rintro (h | h | h | h)
      · exact hg2.1 h
      · exact hz1.1 h
      · exact hg2.2 h
      · exact hz1.2 h)]
    rw [hstreet, hcity, hzip]
  exact ⟨hkey, by rw [hkey]⟩

theorem create_address_key_deterministic_witness :
    (hhStreetNorm (strL "123 Main Street") = hhStreetNorm (strL "123 MAIN ST") ∧
      stripStr (upperStr (strL "Raleigh")) = stripStr (upperStr (strL "RALEIGH")) ∧
      stripStr ((strL "27601").take 5) = stripStr ((strL "27601").take 5)) ∧
    Option.map generate_household_id
        (create_address_key (strL "123 Main Street") (strL "Raleigh") (strL "27601")) =
      Option.map generate_household_id
        (create_address_key (strL "123 MAIN ST") (strL "RALEIGH") (strL "27601")) :=
  ⟨⟨by decide, by decide, rfl⟩,
    (create_address_key_deterministic _ _ _ _ _ _ (by decide) (by decide) rfl
      (by decide) (by decide) (by decide)).2⟩

/-- Claim C4, counterexample to the claim as stated: `123 MAIN ST` and
`123 MAIN ST.` normalise identically under §4.2's `normalize_address`
(which strips punctuation) yet receive different address keys and different
household ids from the household builder (which strips no punctuation). -/
theorem household_key_differs_from_section42_counterexample :
    normalize_address (strL "123 MAIN ST") = normalize_address (strL "123 MAIN ST.") ∧
    create_address_key (strL "123 MAIN ST") (strL "RALEIGH") (strL "27601") ≠
      create_address_key (strL "123 MAIN ST.") (strL "RALEIGH") (strL "27601") ∧
    Option.map generate_household_id
        (create_address_key (strL "123 MAIN ST") (strL "RALEIGH") (strL "27601")) ≠
      Option.map generate_household_id
        (create_address_key (strL "123 MAIN ST.") (strL "RALEIGH") (strL "27601")) := by
  exact ⟨by decide, by decide, by decide⟩

/-! ### Committee-candidate linking (`scripts/link_committees_to_candidates.py`)

The name similarity is `fuzz.token_sort_ratio`, an external library call
(0–100); it is abstracted below as a parameter `sim`, and every theorem
quantifies over it.  The selection logic around it is embedded faithfully. -/

structure Committee where
  committee_id : Str
  committee_name : Str
  county_name : Str
deriving DecidableEq

structure Candidate where
  id : Str
  name_on_ballot : Str
  county_name : Str
  party : Str
  contest_name : Str
deriving DecidableEq

structure CCMatch where
  committee_id : Str
  committee_name : Str
  candidate_id : Str
  candidate_name : Str
  party : Str
  contest_name : Str
  county_name : Str
  confidence : ℚ
  match_type : Str
deriving DecidableEq

/-- `fuzzy_match_committee_to_candidate`, with the library scorer as a
parameter. -/
def fuzzy_match (sim : Str → Str → ℚ) (committee_name candidate_name : Str) : ℚ :=
  if committee_name = [] ∨ candidate_name = [] then 0
  else sim (lowerStrip committee_name) (lowerStrip candidate_name) / 100

/-- The `for _, cand in county_candidates.iterrows()` best-score loop:
update on `score > best_score and score >= threshold`. -/
def bestLoop (score : Candidate → ℚ) (thr : ℚ) :
    List Candidate → ℚ × Option Candidate → ℚ × Option Candidate
  | [], acc => acc
  | c :: rest, acc =>
    if score c > acc.1 ∧ score c ≥ thr then bestLoop score thr rest (score c, some c)
    else bestLoop score thr rest acc

/-- Processing of one committee: the county/name guard, the county filter,
the best-score loop, and the appended match row. -/
def processCommittee (sim : Str → Str → ℚ) (thr : ℚ) (candidates : List Candidate)
    (comm : Committee) : Option CCMatch :=
  let county := lowerStrip comm.county_name
  if county = [] ∨ comm.committee_name = [] then none
  else
    let filtered := candidates.filter (fun c => lowerStrip c.county_name == county)
    let best := bestLoop
      (fun c => fuzzy_match sim comm.committee_name c.name_on_ballot) thr filtered
      (0, none)
    best.2.map (fun cand =>
      ⟨comm.committee_id, comm.committee_name, cand.id, cand.name_on_ballot,
        cand.party, cand.contest_name, county, best.1, strL "county+fuzzy_name"⟩)

/-- `link_committees_to_candidates`: one optional row per committee. -/
def link_committees_to_candidates (sim : Str → Str → ℚ) (thr : ℚ)
    (committees : List Committee) (candidates : List Candidate) : List CCMatch :=
  committees.filterMap (processCommittee sim thr candidates)

theorem bestLoop_none_iff (score : Candidate → ℚ) (thr : ℚ) (l : List Candidate) :
    ∀ b w, (bestLoop score thr l (b, w)).2 = none ↔
      (w = none ∧ ∀ x ∈ l, ¬(score x > b ∧ score x ≥ thr)) := by
  induction l with
  | nil =>
    intro b w
    simp [bestLoop]
  | cons a t ih =>
    intro b w
    by_cases h : score a > b ∧ score a ≥ thr
    · rw [show bestLoop score thr (a :: t) (b, w) =
          bestLoop score thr t (score a, some a) from by simp [bestLoop, h]]
      rw [ih]
      constructor
      · rintro ⟨h1, -⟩
        cases h1
      · rintro ⟨-, hall⟩
        exact absurd h (hall a (List.mem_cons_self a t))
    · rw [show bestLoop score thr (a :: t) (b, w) =
          bestLoop score thr t (b, w) from by simp [bestLoop, h]]
      rw [ih]
      constructor
      · rintro ⟨h1, h2⟩
        refine ⟨h1, fun x hx => ?_⟩
        rcases List.mem_cons.mp hx with rfl | hx
        · exact h
        · exact h2 x hx
      · rintro ⟨h1, h2⟩
        exact ⟨h1, fun x hx => h2 x (List.mem_cons_of_mem a hx)⟩

theorem bestLoop_some (score : Candidate → ℚ) (thr : ℚ) (l : List Candidate) :
    ∀ b w c, (bestLoop score thr l (b, w)).2 = some c →
      ((w = some c ∧ bestLoop score thr l (b, w) = (b, w) ∧
          ∀ x ∈ l, ¬(score x > b ∧ score x ≥ thr)) ∨
        (score c > b ∧ score c ≥ thr ∧ (bestLoop score thr l (b, w)).1 = score c ∧
          ∃ l1 l2, l = l1 ++ c :: l2 ∧ (∀ x ∈ l1, score x < score c) ∧
            ∀ x ∈ l2, score x ≤ score c)) := by
  induction l with
  | nil =>
    intro b w c h
    left
    refine ⟨by simpa [bestLoop] using h, rfl, by simp⟩
  | cons a t ih =>
    intro b w c h
    by_cases ha : score a > b ∧ score a ≥ thr
    · have hred : bestLoop score thr (a :: t) (b, w) =
          bestLoop score thr t (score a, some a) := by simp [bestLoop, ha]
      rw [hred] at h
      rcases ih (score a) (some a) c h with ⟨h1, h2, h3⟩ | ⟨h1, h2, h3, l1, l2, hl, hfst, hsnd⟩
      · injection h1 with h1
        subst h1
      -- the seed `a` is the final best
        right
        refine ⟨ha.1, ha.2, ?_, [], t, rfl, by simp, ?_⟩
        · rw [hred, h2]
        · intro x hx
          by_contra hx'
          push_neg at hx'
          exact h3 x hx ⟨hx', le_trans ha.2 hx'.le⟩
      · right
        refine ⟨lt_trans ha.1 h1, h2, by rw [hred]; exact h3, a :: l1, l2,
          by rw [hl, List.cons_append], ?_, hsnd⟩
        intro x hx
        rcases List.mem_cons.mp hx with rfl | hx
        · exact h1
        · exact hfst x hx
    · have hred : bestLoop score thr (a :: t) (b, w) =
          bestLoop score thr t (b, w) := by simp [bestLoop, ha]
      rw [hred] at h
      rcases ih b w c h with ⟨h1, h2, h3⟩ | ⟨h1, h2, h3, l1, l2, hl, hfst, hsnd⟩
      · left
        refine ⟨h1, by rw [hred]; exact h2, fun x hx => ?_⟩
        rcases List.mem_cons.mp hx with rfl | hx
        · exact ha
        · exact h3 x hx
      · right
        refine ⟨h1, h2, by rw [hred]; exact h3, a :: l1, l2,
          by rw [hl, List.cons_append], ?_, hsnd⟩
        intro x hx
        rcases List.mem_cons.mp hx with rfl | hx
        · rcases not_and_or.mp ha with hb | hthr
          · push_neg at hb
            exact lt_of_le_of_lt hb h1
          · push_neg at hthr
            exact lt_of_lt_of_le hthr h2
        · exact hfst x hx

/-- Claim C7: the linker emits at most one row per committee (`filterMap` of
a per-committee `Option`); a committee with empty normalised county or empty
name, or whose county-filtered candidates all score below the threshold,
yields no row; and an emitted row carries the first-encountered maximum:
a county-filtered candidate with score ≥ threshold, strictly above every
earlier filtered candidate and at least every later one, with the row's
confidence equal to that score. -/
theorem link_committees_to_candidates_spec (sim : Str → Str → ℚ) (thr : ℚ)
    (candidates : List Candidate) (comm : Committee) (hthr : 0 < thr) :
    (∀ committees : List Committee,
      link_committees_to_candidates sim thr committees candidates =
        committees.filterMap (processCommittee sim thr candidates)) ∧
    (processCommittee sim thr candidates comm = none ↔
      (lowerStrip comm.county_name = [] ∨ comm.committee_name = [] ∨
        ∀ c ∈ candidates.filter
            (fun c => lowerStrip c.county_name == lowerStrip comm.county_name),
          fuzzy_match sim comm.committee_name c.name_on_ballot < thr)) ∧
    (∀ m, processCommittee sim thr candidates comm = some m →
      ∃ cand l1 l2,
        candidates.filter
            (fun c => lowerStrip c.county_name == lowerStrip comm.county_name) =
          l1 ++ cand :: l2 ∧
        fuzzy_match sim comm.committee_name cand.name_on_ballot ≥ thr ∧
        (∀ x ∈ l1, fuzzy_match sim comm.committee_name x.name_on_ballot <
          fuzzy_match sim comm.committee_name cand.name_on_ballot) ∧
        (∀ x ∈ l2, fuzzy_match sim comm.committee_name x.name_on_ballot ≤
          fuzzy_match sim comm.committee_name cand.name_on_ballot) ∧
        m = ⟨comm.committee_id, comm.committee_name, cand.id, cand.name_on_ballot,
          cand.party, cand.contest_name, lowerStrip comm.county_name,
          fuzzy_match sim comm.committee_name cand.name_on_ballot,
          strL "county+fuzzy_name"⟩) := by
  refine ⟨fun _ => rfl, ?_, ?_⟩
  · by_cases hg : lowerStrip comm.county_name = [] ∨ comm.committee_name = []
    · have hnone : processCommittee sim thr candidates comm = none := by
        simp only [processCommittee]
        rw [if_pos hg]
      rw [hnone]
      constructor
      · intro _
        rcases hg with hg | hg
        · exact Or.inl hg
        · exact Or.inr (Or.inl hg)
      · intro _
        rfl
    · have hproc : processCommittee sim thr candidates comm =
          (bestLoop (fun c => fuzzy_match sim comm.committee_name c.name_on_ballot)
            thr (candidates.filter
              (fun c => lowerStrip c.county_name == lowerStrip comm.county_name))
            (0, none)).2.map (fun cand =>
              ⟨comm.committee_id, comm.committee_name, cand.id, cand.name_on_ballot,
                cand.party, cand.contest_name, lowerStrip comm.county_name,
                (bestLoop (fun c => fuzzy_match sim comm.committee_name c.name_on_ballot)
                  thr (candidates.filter
                    (fun c => lowerStrip c.county_name == lowerStrip comm.county_name))
                  (0, none)).1, strL "county+fuzzy_name"⟩) := by
        simp only [processCommittee]
        rw [if_neg hg]
      rw [hproc, Option.map_eq_none', bestLoop_none_iff]
      rw [not_or] at hg
      constructor
      · rintro ⟨-, hall⟩
        refine Or.inr (Or.inr fun c hc => ?_)
        by_contra hge
        push_neg at hge
        exact hall c hc ⟨lt_of_lt_of_le hthr hge, hge⟩
      · rintro (hg' | hg' | hall)
        · exact absurd hg' hg.1
        · exact absurd hg' hg.2
        · exact ⟨rfl, fun c hc hcon => absurd hcon.2 (not_le.mpr (hall c hc))⟩
  · intro m hm
    by_cases hg : lowerStrip comm.county_name = [] ∨ comm.committee_name = []
    · exfalso
      have hnone : processCommittee sim thr candidates comm = none := by
        simp only [processCommittee]
        rw [if_pos hg]
      rw [hnone] at hm
      cases hm
    · have hproc : processCommittee sim thr candidates comm =
          (bestLoop (fun c => fuzzy_match sim comm.committee_name c.name_on_ballot)
            thr (candidates.filter
              (fun c => lowerStrip c.county_name == lowerStrip comm.county_name))
            (0, none)).2.map (fun cand =>
              ⟨comm.committee_id, comm.committee_name, cand.id, cand.name_on_ballot,
                cand.party, cand.contest_name, lowerStrip comm.county_name,
                (bestLoop (fun c => fuzzy_match sim comm.committee_name c.name_on_ballot)
                  thr (candidates.filter
                    (fun c => lowerStrip c.county_name == lowerStrip comm.county_name))
                  (0, none)).1, strL "county+fuzzy_name"⟩) := by
        simp only [processCommittee]
        rw [if_neg hg]
      rw [hproc, Option.map_eq_some'] at hm
      rcases hm with ⟨cand, hcand, hf⟩
      rcases bestLoop_some _ _ _ 0 none cand hcand with ⟨hw, -, -⟩ |
        ⟨-, h2, h3, l1, l2, hl, hfst, hsnd⟩
      · cases hw
      · refine ⟨cand, l1, l2, hl, h2, hfst, hsnd, ?_⟩
        rw [← hf, h3]

/-- Concrete committee for the C7 witness. -/
def commW : Committee := ⟨strL "C1", strL "JANE DOE FOR NC", strL "WAKE"⟩

/-- Concrete candidate for the C7 witness. -/
def candW : Candidate :=
  ⟨strL "D7", strL "JANE DOE", strL "Wake ", strL "DEM", strL "GOVERNOR"⟩

theorem link_committees_to_candidates_spec_witness :
    (0 : ℚ) < 17 / 20 ∧
    ((∀ committees : List Committee,
      link_committees_to_candidates (fun _ _ => (90 : ℚ)) (17 / 20) committees [candW] =
        committees.filterMap (processCommittee (fun _ _ => (90 : ℚ)) (17 / 20) [candW])) ∧
    (processCommittee (fun _ _ => (90 : ℚ)) (17 / 20) [candW] commW = none ↔
      (lowerStrip commW.county_name = [] ∨ commW.committee_name = [] ∨
        ∀ c ∈ List.filter
            (fun c => lowerStrip c.county_name == lowerStrip commW.county_name) [candW],
          fuzzy_match (fun _ _ => (90 : ℚ)) commW.committee_name c.name_on_ballot < 17 / 20)) ∧
    (∀ m, processCommittee (fun _ _ => (90 : ℚ)) (17 / 20) [candW] commW = some m →
      ∃ cand l1 l2,
        List.filter
            (fun c => lowerStrip c.county_name == lowerStrip commW.county_name) [candW] =
          l1 ++ cand :: l2 ∧
        fuzzy_match (fun _ _ => (90 : ℚ)) commW.committee_name cand.name_on_ballot ≥ 17 / 20 ∧
        (∀ x ∈ l1, fuzzy_match (fun _ _ => (90 : ℚ)) commW.committee_name x.name_on_ballot <
          fuzzy_match (fun _ _ => (90 : ℚ)) commW.committee_name cand.name_on_ballot) ∧
        (∀ x ∈ l2, fuzzy_match (fun _ _ => (90 : ℚ)) commW.committee_name x.name_on_ballot ≤
          fuzzy_match (fun _ _ => (90 : ℚ)) commW.committee_name cand.name_on_ballot) ∧
        m = ⟨commW.committee_id, commW.committee_name, cand.id, cand.name_on_ballot,
          cand.party, cand.contest_name, lowerStrip commW.county_name,
          fuzzy_match (fun _ _ => (90 : ℚ)) commW.committee_name cand.name_on_ballot,
          strL "county+fuzzy_name"⟩)) :=
  ⟨by norm_num,
    link_committees_to_candidates_spec (fun _ _ => (90 : ℚ)) (17 / 20) [candW] commW
      (by norm_num)⟩

/-! ### Claim C5: the Winkler boost factor -/

theorem getD_replicate_bool (n k : Nat) (b d : Bool) :
    (List.replicate n b).getD k d = if k < n then b else d := by
  rw [List.getD_eq_getElem?_getD, List.getElem?_replicate]
  by_cases h : k < n
  · rw [if_pos h, if_pos h]
    rfl
  · rw [if_neg h, if_neg h]
    rfl

theorem greedyGoL_nil_right (d : Nat) :
    ∀ (l : List (Nat × Char)) m2, greedyGoL [] d l m2 = [] := by
  intro l
  induction l with
  | nil =>
    intro m2
    rfl
  | cons ic rest ih =>
    intro m2
    rcases ic with ⟨i, c⟩
    have hnone : findMatchJ c [] m2 (i - d) 0 = none := by
      simp [findMatchJ]
    simp [greedyGoL, hnone, ih]

theorem greedyPairs_nil_right (s1 : Str) : greedyPairs s1 [] = [] := by
  unfold greedyPairs
  exact greedyGoL_nil_right _ _ _

theorem greedyGoL_eq_nil_forall (s2 : Str) (d : Nat) :
    ∀ (l : List (Nat × Char)) m2, greedyGoL s2 d l m2 = [] →
      ∀ p ∈ l, findMatchJ p.2 s2 m2 (p.1 - d) (min (p.1 + d + 1) s2.length) = none := by
  intro l
  induction l with
  | nil =>
    intro m2 _ p hp
    cases hp
  | cons ic rest ih =>
    intro m2 h p hp
    rcases ic with ⟨i, c⟩
    rcases hfind : findMatchJ c s2 m2 (i - d) (min (i + d + 1) s2.length) with - | j
    · simp only [greedyGoL, hfind] at h
      rcases List.mem_cons.mp hp with rfl | hp
      · exact hfind
      · exact ih m2 h p hp
    · simp only [greedyGoL, hfind] at h
      cases h

theorem mem_enumFrom_getD :
    ∀ (l : Str) (n k : Nat), k < l.length → (n + k, l.getD k 'A') ∈ l.enumFrom n := by
  intro l
  induction l with
  | nil =>
    intro n k h
    simp at h
  | cons a t ih =>
    intro n k h
    cases k with
    | zero =>
      simp [List.enumFrom]
    | succ k =>
      have hmem := ih (n + 1) k (by simpa using h)
      rw [show n + (k + 1) = n + 1 + k from by omega]
      exact List.mem_cons_of_mem _ hmem

theorem mem_enum_getD (l : Str) (k : Nat) (h : k < l.length) :
    (k, l.getD k 'A') ∈ l.enum := by
  have := mem_enumFrom_getD l 0 k h
  simpa [List.enum] using this

theorem prefixBoostCount_eq_zero_of_no_matches (s1 s2 : Str)
    (hm : greedyPairs s1 s2 = []) : prefixBoostCount s1 s2 = 0 := by
  unfold prefixBoostCount
  rw [List.countP_eq_zero]
  intro k hk
  rw [List.mem_range] at hk
  have hk1 : k < s1.length :=
    lt_of_lt_of_le hk (le_trans (min_le_right _ _) (min_le_left _ _))
  have hk2 : k < s2.length :=
    lt_of_lt_of_le hk (le_trans (min_le_right _ _) (min_le_right _ _))
  have hstep := greedyGoL_eq_nil_forall s2 (matchDistance s1.length s2.length)
    s1.enum (List.replicate s2.length false) hm (k, s1.getD k 'A')
    (mem_enum_getD s1 k hk1)
  simp only [findMatchJ, List.find?_eq_none] at hstep
  have hkmem : k ∈ List.range' (k - matchDistance s1.length s2.length)
      (min (k + matchDistance s1.length s2.length + 1) s2.length -
        (k - matchDistance s1.length s2.length)) := by
    rw [List.mem_range']
    refine ⟨k - (k - matchDistance s1.length s2.length), ?_, by omega⟩
    have hlt : k < min (k + matchDistance s1.length s2.length + 1) s2.length := by
      omega
    omega
  have hpred := hstep k hkmem
  simp only [Bool.and_eq_true, Bool.not_eq_true', beq_iff_eq,
    getD_replicate_bool, if_pos hk2, not_and] at hpred
  rw [Bool.not_eq_true, beq_eq_false_iff_ne]
  intro hkeq
  exact hpred trivial hkeq.symm

/-- Claim C5 (amended): for non-empty inputs whose normalised (upper-cased,
trimmed) forms differ, the similarity equals
`jaro + L * 0.1 * (1 - jaro)` where `jaro` is the Jaro similarity of the
normalised strings and `L` counts the positions among the first
`min(4, len1, len2)` at which the normalised strings agree — the
position-wise count of the source, not the contiguous common-prefix
length of the specification. -/
theorem calculate_name_similarity_formula (n1 n2 : Str)
    (h1 : n1 ≠ []) (h2 : n2 ≠ []) (hne : normName n1 ≠ normName n2) :
    calculate_name_similarity n1 n2 =
      jaroOf (normName n1) (normName n2) +
        (prefixBoostCount (normName n1) (normName n2) : ℚ) * (1 / 10) *
          (1 - jaroOf (normName n1) (normName n2)) := by
  simp only [calculate_name_similarity]
  rw [if_neg (by simp [h1, h2])]
  rw [if_neg hne]
  by_cases hlen : (normName n1).length = 0 ∨ (normName n2).length = 0
  · have hp : greedyPairs (normName n1) (normName n2) = [] := by
      rcases hlen with hl | hl
      · rw [List.length_eq_zero] at hl
        rw [hl]
        rfl
      · rw [List.length_eq_zero] at hl
        rw [hl]
        exact greedyPairs_nil_right _
    rw [if_pos (by rcases hlen with hl | hl <;> simp [hl])]
    rw [show jaroOf (normName n1) (normName n2) = 0 from by simp [jaroOf, hp],
      prefixBoostCount_eq_zero_of_no_matches _ _ hp]
    norm_num
  · rw [not_or] at hlen
    rw [if_neg (by simp [hlen.1, hlen.2])]
    by_cases hm : (greedyPairs (normName n1) (normName n2)).length = 0
    · have hp : greedyPairs (normName n1) (normName n2) = [] :=
        List.length_eq_zero.mp hm
      rw [if_pos hm]
      rw [show jaroOf (normName n1) (normName n2) = 0 from by simp [jaroOf, hp],
        prefixBoostCount_eq_zero_of_no_matches _ _ hp]
      norm_num
    · rw [if_neg hm]

theorem calculate_name_similarity_formula_witness :
    (strL "JOHN" ≠ [] ∧ strL "JIM" ≠ [] ∧
      normName (strL "JOHN") ≠ normName (strL "JIM")) ∧
    calculate_name_similarity (strL "JOHN") (strL "JIM") =
      jaroOf (normName (strL "JOHN")) (normName (strL "JIM")) +
        (prefixBoostCount (normName (strL "JOHN")) (normName (strL "JIM")) : ℚ) *
          (1 / 10) *
          (1 - jaroOf (normName (strL "JOHN")) (normName (strL "JIM"))) :=
  ⟨⟨by decide, by decide, by decide⟩,
    calculate_name_similarity_formula _ _ (by decide) (by decide) (by decide)⟩

/-- Claim C5, counterexample to the claim as stated: for `ABCD` vs `ABXD`
(non-empty, unequal after normalisation) the source's boost factor counts
the three agreeing positions 0, 1 and 3 among the first four, while the
claimed formula uses the contiguous common prefix of length 2; the returned
similarity 53/60 differs from the claimed 13/15. -/
theorem calculate_name_similarity_prefix_counterexample :
    calculate_name_similarity (strL "ABCD") (strL "ABXD") ≠
      jaroOf (strL "ABCD") (strL "ABXD") +
        (min 4 (commonPrefixLen (strL "ABCD") (strL "ABXD")) : ℚ) * (1 / 10) *
          (1 - jaroOf (strL "ABCD") (strL "ABXD")) := by
  with_unfolding_all decide

/-! ### Claim C8: symmetry of `calculate_name_similarity`

Strategy: the matched pair list produced by the greedy windowed loop is
characterised, uniquely, by an order-theoretic predicate (`GreedySpec`);
the predicate is symmetric under swapping the two strings together with
every matched pair; hence the two directions produce the same set of pairs,
and match and transposition counts — and with them the whole similarity —
agree. -/

theorem findMatchJ_none {c : Char} {s2 : Str} {m2 : List Bool} {lo hi : Nat}
    (h : findMatchJ c s2 m2 lo hi = none) :
    ∀ q, lo ≤ q → q < hi → m2.getD q true = true ∨ s2.getD q 'A' ≠ c := by
  unfold findMatchJ at h
  rw [List.find?_eq_none] at h
  intro q h1 h2
  have hq := h q (by
    rw [List.mem_range']
    exact ⟨q - lo, by omega, by omega⟩)
  rw [Bool.not_eq_true, Bool.and_eq_false_iff] at hq
  rcases hq with hq | hq
  · left
    simpa using hq
  · right
    rwa [beq_eq_false_iff_ne] at hq

theorem findMatchJ_some {c : Char} {s2 : Str} {m2 : List Bool} {lo hi j : Nat}
    (h : findMatchJ c s2 m2 lo hi = some j) :
    lo ≤ j ∧ j < hi ∧ m2.getD j true = false ∧ s2.getD j 'A' = c ∧
      ∀ q, lo ≤ q → q < j → m2.getD q true = true ∨ s2.getD q 'A' ≠ c := by
  unfold findMatchJ at h
  rw [List.find?_eq_some] at h
  rcases h with ⟨hpj, as, bs, hsplit, hfail⟩
  have hjmem : j ∈ List.range' lo (hi - lo) := by
    rw [hsplit]
    exact List.mem_append_right _ (List.mem_cons_self _ _)
  rw [List.mem_range'] at hjmem
  rcases hjmem with ⟨i, hilt, hjeq⟩
  have hj1 : lo ≤ j := by omega
  have hj2 : j < hi := by omega
  rw [Bool.and_eq_true, Bool.not_eq_true', beq_iff_eq] at hpj
  refine ⟨hj1, hj2, hpj.1, hpj.2, ?_⟩
  intro q hq1 hq2
  have hqmem : q ∈ List.range' lo (hi - lo) := by
    rw [List.mem_range']
    exact ⟨q - lo, by omega, by omega⟩
  rw [hsplit] at hqmem
  rcases List.mem_append.mp hqmem with hqas | hqcons
  · have := hfail q hqas
    rw [Bool.not_eq_true', Bool.and_eq_false_iff] at this
    rcases this with hh | hh
    · left
      simpa using hh
    · right
      rwa [beq_eq_false_iff_ne] at hh
  · exfalso
    rcases List.mem_cons.mp hqcons with rfl | hqbs
    · omega
    · have hpw : (List.range' lo (hi - lo)).Pairwise (· < ·) :=
        List.pairwise_lt_range' _ _
      rw [hsplit] at hpw
      have := (List.pairwise_append.mp hpw).2.1
      have hlt := List.rel_of_pairwise_cons this hqbs
      omega

/-- Order-theoretic characterisation of the greedy windowed matching:
pair validity, functionality in both coordinates, the skip condition (an
unmatched `s1` position found every compatible `s2` position already taken
by an earlier `s1` position) and minimal choice (every compatible `s2`
position left of a pair's partner is taken by an earlier `s1` position). -/
structure GreedySpec (s1 s2 : Str) (d : Nat) (L : List (Nat × Nat)) : Prop where
  valid : ∀ pq ∈ L, pq.1 < s1.length ∧ pq.2 < s2.length ∧
    s1.getD pq.1 'A' = s2.getD pq.2 'A' ∧ pq.1 - d ≤ pq.2 ∧ pq.2 < pq.1 + d + 1
  funT : ∀ p q q', (p, q) ∈ L → (p, q') ∈ L → q = q'
  funS : ∀ p p' q, (p, q) ∈ L → (p', q) ∈ L → p = p'
  skip : ∀ p, p < s1.length → (∀ q, (p, q) ∉ L) →
    ∀ q, q < s2.length → p - d ≤ q → q < p + d + 1 →
      s1.getD p 'A' = s2.getD q 'A' → ∃ p', p' < p ∧ (p', q) ∈ L
  minc : ∀ p q, (p, q) ∈ L → ∀ q', q' < q → p - d ≤ q' →
    s1.getD p 'A' = s2.getD q' 'A' → ∃ p', p' < p ∧ (p', q') ∈ L

theorem getD_set_self_bool (l : List Bool) (j : Nat) (b d : Bool)
    (hj : j < l.length) : (l.set j b).getD j d = b := by
  rw [List.getD_eq_getElem?_getD, List.getElem?_set_self hj]
  rfl

theorem getD_set_ne_bool (l : List Bool) (i j : Nat) (b d : Bool) (h : j ≠ i) :
    (l.set j b).getD i d = l.getD i d := by
  rw [List.getD_eq_getElem?_getD, List.getElem?_set_ne h,
    ← List.getD_eq_getElem?_getD]

theorem greedyGoL_mem {s2 : Str} {d : Nat} :
    ∀ (l : List (Nat × Char)) (m2 : List Bool), m2.length = s2.length →
      ∀ pq ∈ greedyGoL s2 d l m2,
        ∃ c, (pq.1, c) ∈ l ∧ pq.2 < s2.length ∧ pq.1 - d ≤ pq.2 ∧
          pq.2 < pq.1 + d + 1 ∧ s2.getD pq.2 'A' = c ∧ m2.getD pq.2 true = false := by
  intro l
  induction l with
  | nil =>
    intro m2 _ pq hpq
    cases hpq
  | cons ic rest ih =>
    intro m2 hm2 pq hpq
    rcases ic with ⟨i, c⟩
    rcases hfind : findMatchJ c s2 m2 (i - d) (min (i + d + 1) s2.length) with - | j
    · rw [show greedyGoL s2 d ((i, c) :: rest) m2 = greedyGoL s2 d rest m2 from by
        simp only [greedyGoL, hfind]] at hpq
      rcases ih m2 hm2 pq hpq with ⟨c', hmem, hrest⟩
      exact ⟨c', List.mem_cons_of_mem _ hmem, hrest⟩
    · rw [show greedyGoL s2 d ((i, c) :: rest) m2 =
          (i, j) :: greedyGoL s2 d rest (m2.set j true) from by
        simp only [greedyGoL, hfind]] at hpq
      rcases findMatchJ_some hfind with ⟨hj1, hj2, hj3, hj4, -⟩
      rcases List.mem_cons.mp hpq with rfl | hpq
      · exact ⟨c, List.mem_cons_self _ _, lt_of_lt_of_le hj2 (min_le_right _ _),
          hj1, lt_of_lt_of_le hj2 (min_le_left _ _), hj4, hj3⟩
      · rcases ih (m2.set j true) (by rw [List.length_set]; exact hm2) pq hpq with
          ⟨c', hmem, hlen, hlo, hhi, hchar, hflag⟩
        refine ⟨c', List.mem_cons_of_mem _ hmem, hlen, hlo, hhi, hchar, ?_⟩
        by_cases hq : pq.2 = j
        · exfalso
          rw [hq, getD_set_self_bool _ _ _ _ (by omega)] at hflag
          cases hflag
        · rwa [getD_set_ne_bool _ _ _ _ _ (fun hh => hq hh.symm)] at hflag

theorem greedyGoL_fst_sublist {s2 : Str} {d : Nat} :
    ∀ (l : List (Nat × Char)) (m2 : List Bool),
      ((greedyGoL s2 d l m2).map Prod.fst).Sublist (l.map Prod.fst) := by
  intro l
  induction l with
  | nil =>
    intro m2
    simp [greedyGoL]
  | cons ic rest ih =>
    intro m2
    rcases ic with ⟨i, c⟩
    rcases hfind : findMatchJ c s2 m2 (i - d) (min (i + d + 1) s2.length) with - | j
    · rw [show greedyGoL s2 d ((i, c) :: rest) m2 = greedyGoL s2 d rest m2 from by
        simp only [greedyGoL, hfind]]
      exact List.Sublist.trans (ih m2) (List.sublist_cons_self _ _)
    · rw [show greedyGoL s2 d ((i, c) :: rest) m2 =
          (i, j) :: greedyGoL s2 d rest (m2.set j true) from by
        simp only [greedyGoL, hfind]]
      exact List.Sublist.cons₂ _ (ih (m2.set j true))

theorem greedyGoL_snd_nodup {s2 : Str} {d : Nat} :
    ∀ (l : List (Nat × Char)) (m2 : List Bool), m2.length = s2.length →
      ((greedyGoL s2 d l m2).map Prod.snd).Nodup := by
  intro l
  induction l with
  | nil =>
    intro m2 _
    simp [greedyGoL]
  | cons ic rest ih =>
    intro m2 hm2
    rcases ic with ⟨i, c⟩
    rcases hfind : findMatchJ c s2 m2 (i - d) (min (i + d + 1) s2.length) with - | j
    · rw [show greedyGoL s2 d ((i, c) :: rest) m2 = greedyGoL s2 d rest m2 from by
        simp only [greedyGoL, hfind]]
      exact ih m2 hm2
    · rw [show greedyGoL s2 d ((i, c) :: rest) m2 =
          (i, j) :: greedyGoL s2 d rest (m2.set j true) from by
        simp only [greedyGoL, hfind]]
      rw [List.map_cons, List.nodup_cons]
      constructor
      · intro hjmem
        rcases List.mem_map.mp hjmem with ⟨pq, hpq, hpqj⟩
        rcases greedyGoL_mem rest (m2.set j true)
            (by rw [List.length_set]; exact hm2) pq hpq with
          ⟨c', -, -, -, -, -, hflag⟩
        rcases findMatchJ_some hfind with ⟨-, hj2, -, -, -⟩
        rw [hpqj, getD_set_self_bool _ _ _ _ (by
          rw [hm2]
          exact lt_of_lt_of_le hj2 (min_le_right _ _))] at hflag
        cases hflag
      · exact ih (m2.set j true) (by rw [List.length_set]; exact hm2)

theorem greedyGoL_skip {s2 : Str} {d : Nat} :
    ∀ (l : List (Nat × Char)) (m2 : List Bool), m2.length = s2.length →
      ((l.map Prod.fst).Pairwise (· < ·)) →
      ∀ ic ∈ l, (∀ q, (ic.1, q) ∉ greedyGoL s2 d l m2) →
        ∀ q, q < s2.length → ic.1 - d ≤ q → q < ic.1 + d + 1 →
          s2.getD q 'A' = ic.2 →
          m2.getD q true = true ∨
            ∃ p', p' < ic.1 ∧ (p', q) ∈ greedyGoL s2 d l m2 := by
  intro l
  induction l with
  | nil =>
    intro m2 _ _ ic hic
    cases hic
  | cons hd rest ih =>
    intro m2 hm2 hsorted ic hic hno q hq1 hq2 hq3 hq4
    rcases hd with ⟨i, c⟩
    rw [List.map_cons, List.pairwise_cons] at hsorted
    rcases hfind : findMatchJ c s2 m2 (i - d) (min (i + d + 1) s2.length) with - | j
    · rw [show greedyGoL s2 d ((i, c) :: rest) m2 = greedyGoL s2 d rest m2 from by
        simp only [greedyGoL, hfind]] at hno ⊢
      rcases List.mem_cons.mp hic with rfl | hic
      · rcases findMatchJ_none hfind q (by omega)
            (by omega) with hm | hne
        · exact Or.inl hm
        · exact absurd hq4 hne
      · exact ih m2 hm2 hsorted.2 ic hic hno q hq1 hq2 hq3 hq4
    · rw [show greedyGoL s2 d ((i, c) :: rest) m2 =
          (i, j) :: greedyGoL s2 d rest (m2.set j true) from by
        simp only [greedyGoL, hfind]] at hno ⊢
      rcases List.mem_cons.mp hic with rfl | hic
      · exact absurd (List.mem_cons_self _ _) (hno j)
      · have hilt : i < ic.1 := hsorted.1 ic.1 (List.mem_map_of_mem Prod.fst hic)
        have hno' : ∀ q₂, (ic.1, q₂) ∉ greedyGoL s2 d rest (m2.set j true) := by
          intro q₂ hmem
          exact hno q₂ (List.mem_cons_of_mem _ hmem)
        rcases ih (m2.set j true) (by rw [List.length_set]; exact hm2) hsorted.2
            ic hic hno' q hq1 hq2 hq3 hq4 with hm | ⟨p', hp', hmem⟩
        · by_cases hqj : q = j
          · exact Or.inr ⟨i, hilt, by rw [hqj]; exact List.mem_cons_self _ _⟩
          · left
            rwa [getD_set_ne_bool _ _ _ _ _ (fun hh => hqj hh.symm)] at hm
        · exact Or.inr ⟨p', hp', List.mem_cons_of_mem _ hmem⟩

theorem greedyGoL_minc {s2 : Str} {d : Nat} :
    ∀ (l : List (Nat × Char)) (m2 : List Bool), m2.length = s2.length →
      ((l.map Prod.fst).Pairwise (· < ·)) →
      ∀ p c q, (p, c) ∈ l → (p, q) ∈ greedyGoL s2 d l m2 →
        ∀ q', q' < q → p - d ≤ q' → s2.getD q' 'A' = c →
          m2.getD q' true = true ∨
            ∃ p', p' < p ∧ (p', q') ∈ greedyGoL s2 d l m2 := by
  intro l
  induction l with
  | nil =>
    intro m2 _ _ p c q hpc hpq
    cases hpc
  | cons hd rest ih =>
    intro m2 hm2 hsorted p c q hpc hpq q' hq'1 hq'2 hq'3
    rcases hd with ⟨i, c0⟩
    rw [List.map_cons, List.pairwise_cons] at hsorted
    rcases hfind : findMatchJ c0 s2 m2 (i - d) (min (i + d + 1) s2.length) with - | j
    · rw [show greedyGoL s2 d ((i, c0) :: rest) m2 = greedyGoL s2 d rest m2 from by
        simp only [greedyGoL, hfind]] at hpq ⊢
      have hprest : p ∈ rest.map Prod.fst :=
        (greedyGoL_fst_sublist rest m2).subset
          (List.mem_map_of_mem Prod.fst hpq)
      rcases List.mem_cons.mp hpc with heq | hpc
      · exfalso
        have : i < p := hsorted.1 p hprest
        have : p = i := congrArg Prod.fst heq
        omega
      · exact ih m2 hm2 hsorted.2 p c q hpc hpq q' hq'1 hq'2 hq'3
    · rw [show greedyGoL s2 d ((i, c0) :: rest) m2 =
          (i, j) :: greedyGoL s2 d rest (m2.set j true) from by
        simp only [greedyGoL, hfind]] at hpq ⊢
      rcases List.mem_cons.mp hpq with heq | hpq
      · have hpi : p = i := (Prod.mk.injEq _ _ _ _ ▸ heq).1
        have hqj : q = j := (Prod.mk.injEq _ _ _ _ ▸ heq).2
        subst hpi
        subst hqj
        have hcc : c = c0 := by
          rcases List.mem_cons.mp hpc with heq2 | hpc2
          · exact (Prod.mk.injEq _ _ _ _ ▸ heq2).2.symm ▸ rfl
          · exfalso
            have : p < p := hsorted.1 p (List.mem_map_of_mem Prod.fst hpc2)
            omega
        rcases findMatchJ_some hfind with ⟨-, -, -, -, hearlier⟩
        rcases hearlier q' hq'2 hq'1 with hm | hne
        · exact Or.inl hm
        · rw [hcc] at hq'3
          exact absurd hq'3 hne
      · have hprest : p ∈ rest.map Prod.fst :=
          (greedyGoL_fst_sublist rest (m2.set j true)).subset
            (List.mem_map_of_mem Prod.fst hpq)
        have hilt : i < p := hsorted.1 p hprest
        have hpcrest : (p, c) ∈ rest := by
          rcases List.mem_cons.mp hpc with heq2 | hpc2
          · exfalso
            have : p = i := (Prod.mk.injEq _ _ _ _ ▸ heq2).1
            omega
          · exact hpc2
        rcases ih (m2.set j true) (by rw [List.length_set]; exact hm2) hsorted.2
            p c q hpcrest hpq q' hq'1 hq'2 hq'3 with hm | ⟨p', hp', hmem⟩
        · by_cases hqj : q' = j
          · exact Or.inr ⟨i, hilt, by rw [hqj]; exact List.mem_cons_self _ _⟩
          · left
            rwa [getD_set_ne_bool _ _ _ _ _ (fun hh => hqj hh.symm)] at hm
        · exact Or.inr ⟨p', hp', List.mem_cons_of_mem _ hmem⟩

theorem mem_enum_facts (l : Str) (i : Nat) (c : Char) (h : (i, c) ∈ l.enum) :
    i < l.length ∧ l.getD i 'A' = c := by
  rw [List.mk_mem_enum_iff_get?] at h
  have hlt : i < l.length := by
    by_contra hge
    rw [List.get?_eq_none.mpr (by omega)] at h
    cases h
  refine ⟨hlt, ?_⟩
  rw [List.getD_eq_get?, h]
  rfl

theorem pairs_functional_fst {L : List (Nat × Nat)}
    (h : (L.map Prod.fst).Nodup) :
    ∀ p q q', (p, q) ∈ L → (p, q') ∈ L → q = q' := by
  induction L with
  | nil =>
    intro p q q' h1
    cases h1
  | cons a t ih =>
    rw [List.map_cons, List.nodup_cons] at h
    intro p q q' h1 h2
    rcases List.mem_cons.mp h1 with heq1 | h1 <;>
      rcases List.mem_cons.mp h2 with heq2 | h2
    · rw [← heq2] at heq1
      exact (Prod.mk.injEq _ _ _ _ ▸ heq1).2
    · exfalso
      apply h.1
      rw [show a.1 = p from (congrArg Prod.fst heq1).symm]
      exact List.mem_map_of_mem Prod.fst h2
    · exfalso
      apply h.1
      rw [show a.1 = p from (congrArg Prod.fst heq2).symm]
      exact List.mem_map_of_mem Prod.fst h1
    · exact ih h.2 p q q' h1 h2

theorem pairs_functional_snd {L : List (Nat × Nat)}
    (h : (L.map Prod.snd).Nodup) :
    ∀ p p' q, (p, q) ∈ L → (p', q) ∈ L → p = p' := by
  induction L with
  | nil =>
    intro p p' q h1
    cases h1
  | cons a t ih =>
    rw [List.map_cons, List.nodup_cons] at h
    intro p p' q h1 h2
    rcases List.mem_cons.mp h1 with heq1 | h1 <;>
      rcases List.mem_cons.mp h2 with heq2 | h2
    · rw [← heq2] at heq1
      exact (Prod.mk.injEq _ _ _ _ ▸ heq1).1
    · exfalso
      apply h.1
      rw [show a.2 = q from (congrArg Prod.snd heq1).symm]
      exact List.mem_map_of_mem Prod.snd h2
    · exfalso
      apply h.1
      rw [show a.2 = q from (congrArg Prod.snd heq2).symm]
      exact List.mem_map_of_mem Prod.snd h1
    · exact ih h.2 p p' q h1 h2

theorem enum_fst_pairwise (s1 : Str) :
    ((s1.enum.map Prod.fst)).Pairwise (· < ·) := by
  rw [show s1.enum.map Prod.fst = List.range' 0 s1.length from
    List.enumFrom_map_fst 0 s1]
  exact List.pairwise_lt_range' _ _

theorem greedyPairs_fst_pairwise (s1 s2 : Str) :
    ((greedyPairs s1 s2).map Prod.fst).Pairwise (· < ·) :=
  (enum_fst_pairwise s1).sublist (greedyGoL_fst_sublist _ _)

theorem greedyPairs_spec (s1 s2 : Str) :
    GreedySpec s1 s2 (matchDistance s1.length s2.length) (greedyPairs s1 s2) := by
  have hm2 : (List.replicate s2.length false).length = s2.length :=
    List.length_replicate _ _
  constructor
  · intro pq hpq
    rcases greedyGoL_mem s1.enum _ hm2 pq hpq with
      ⟨c, hmem, hlen, hlo, hhi, hchar, -⟩
    rcases mem_enum_facts s1 pq.1 c hmem with ⟨hp, hc⟩
    exact ⟨hp, hlen, by rw [hc, hchar], hlo, hhi⟩
  · exact pairs_functional_fst ((greedyPairs_fst_pairwise s1 s2).imp ne_of_lt)
  · exact pairs_functional_snd (greedyGoL_snd_nodup s1.enum _ hm2)
  · intro p hp hno q hq1 hq2 hq3 hchar
    rcases greedyGoL_skip s1.enum _ hm2 (enum_fst_pairwise s1)
        (p, s1.getD p 'A') (mem_enum_getD s1 p hp) hno q hq1 hq2 hq3 hchar.symm with
      hm | hex
    · rw [getD_replicate_bool, if_pos hq1] at hm
      cases hm
    · exact hex
  · intro p q hpq q' hq'1 hq'2 hchar
    rcases greedyGoL_mem s1.enum _ hm2 (p, q) hpq with ⟨c, hmem, -, -, -, -, -⟩
    rcases mem_enum_facts s1 p c hmem with ⟨hp, hc⟩
    rcases greedyGoL_minc s1.enum _ hm2 (enum_fst_pairwise s1) p c q hmem hpq q'
        hq'1 hq'2 (by rw [← hc, ← hchar]) with hm | hex
    · rcases greedyGoL_mem s1.enum _ hm2 (p, q) hpq with ⟨c2, -, hqlen, -, -, -, -⟩
      have hq'len : q' < s2.length := by
        rcases greedyGoL_mem s1.enum _ hm2 (p, q) hpq with ⟨c3, -, hql, -, -, -, -⟩
        omega
      rw [getD_replicate_bool, if_pos hq'len] at hm
      cases hm
    · exact hex

theorem mem_map_swap (L : List (Nat × Nat)) (p q : Nat) :
    (p, q) ∈ L.map Prod.swap ↔ (q, p) ∈ L := by
  rw [List.mem_map]
  constructor
  · rintro ⟨⟨a, b⟩, hab, heq⟩
    have h1 : b = p := (Prod.mk.injEq _ _ _ _ ▸ heq).1
    have h2 : a = q := (Prod.mk.injEq _ _ _ _ ▸ heq).2
    rw [← h1, ← h2]
    exact hab
  · intro h
    exact ⟨(q, p), h, rfl⟩

theorem greedySpec_unique_aux {s1 s2 : Str} {d : Nat} {L1 L2 : List (Nat × Nat)}
    (h1 : GreedySpec s1 s2 d L1) (h2 : GreedySpec s1 s2 d L2) :
    ∀ p, (∀ p', p' < p → ∀ q, ((p', q) ∈ L1 ↔ (p', q) ∈ L2)) →
      ∀ q, (p, q) ∈ L1 → (p, q) ∈ L2 := by
  intro p ih q hpq
  rcases h1.valid (p, q) hpq with ⟨hp, hq, hchar, hlo, hhi⟩
  by_cases hex : ∃ q2, (p, q2) ∈ L2
  · rcases hex with ⟨q2, hq2⟩
    rcases Nat.lt_trichotomy q2 q with hqlt | hqeq | hqgt
    · exfalso
      rcases h2.valid (p, q2) hq2 with ⟨-, -, hchar2, hlo2, -⟩
      rcases h1.minc p q hpq q2 hqlt hlo2 hchar2 with ⟨p', hp'lt, hp'mem⟩
      have hmem2 : (p', q2) ∈ L2 := (ih p' hp'lt q2).mp hp'mem
      have := h2.funS p' p q2 hmem2 hq2
      omega
    · rwa [hqeq] at hq2
    · exfalso
      rcases h2.minc p q2 hq2 q hqgt hlo hchar with ⟨p', hp'lt, hp'mem⟩
      have hmem1 : (p', q) ∈ L1 := (ih p' hp'lt q).mpr hp'mem
      have := h1.funS p' p q hmem1 hpq
      omega
  · push_neg at hex
    exfalso
    rcases h2.skip p hp (fun q₂ => hex q₂) q hq hlo hhi hchar with
      ⟨p', hp'lt, hp'mem⟩
    have hmem1 : (p', q) ∈ L1 := (ih p' hp'lt q).mpr hp'mem
    have := h1.funS p' p q hmem1 hpq
    omega

theorem greedySpec_unique {s1 s2 : Str} {d : Nat} {L1 L2 : List (Nat × Nat)}
    (h1 : GreedySpec s1 s2 d L1) (h2 : GreedySpec s1 s2 d L2) :
    ∀ p q, (p, q) ∈ L1 ↔ (p, q) ∈ L2 := by
  intro p
  induction p using Nat.strong_induction_on with
  | _ p ih =>
    intro q
    constructor
    · exact greedySpec_unique_aux h1 h2 p (fun p' hlt => ih p' hlt) q
    · exact greedySpec_unique_aux h2 h1 p (fun p' hlt q' => (ih p' hlt q').symm) q

theorem greedySpec_swap {s1 s2 : Str} {d : Nat} {L : List (Nat × Nat)}
    (h : GreedySpec s2 s1 d L) : GreedySpec s1 s2 d (L.map Prod.swap) := by
  constructor
  · rintro ⟨p, q⟩ hpq
    have hmem : (q, p) ∈ L := (mem_map_swap _ _ _).mp hpq
    rcases h.valid _ hmem with ⟨h1, h2, h3, h4, h5⟩
    exact ⟨h2, h1, h3.symm, by omega, by omega⟩
  · intro p q q' hmem1 hmem2
    exact h.funS q q' p ((mem_map_swap _ _ _).mp hmem1)
      ((mem_map_swap _ _ _).mp hmem2)
  · intro p p' q hmem1 hmem2
    exact h.funT q p p' ((mem_map_swap _ _ _).mp hmem1)
      ((mem_map_swap _ _ _).mp hmem2)
  · intro p hp hno q hq hlo hhi hchar
    by_cases hqm : ∃ x, (q, x) ∈ L
    · rcases hqm with ⟨p0, hp0⟩
      have hp0ne : p0 ≠ p := by
        intro heq
        rw [heq] at hp0
        exact hno q ((mem_map_swap _ _ _).mpr hp0)
      rcases Nat.lt_or_ge p0 p with hlt | hge
      · exact ⟨p0, hlt, (mem_map_swap _ _ _).mpr hp0⟩
      · have hp0gt : p < p0 := by omega
        rcases h.minc q p0 hp0 p hp0gt (by omega) hchar.symm with
          ⟨q', hq'lt, hq'mem⟩
        exact absurd ((mem_map_swap _ _ _).mpr hq'mem) (hno q')
    · push_neg at hqm
      rcases h.skip q hq (fun x => hqm x) p hp (by omega) (by omega) hchar.symm
        with ⟨q', hq'lt, hq'mem⟩
      exact absurd ((mem_map_swap _ _ _).mpr hq'mem) (hno q')
  · intro p q hpq q' hq'lt hq'lo hchar
    have hqp : (q, p) ∈ L := (mem_map_swap _ _ _).mp hpq
    rcases h.valid _ hqp with ⟨hqlen, hplen, hcharqp, hwlo, hwhi⟩
    by_cases hq'm : ∃ x, (q', x) ∈ L
    · rcases hq'm with ⟨p1, hp1⟩
      rcases Nat.lt_trichotomy p1 p with hlt | heq | hgt
      · exact ⟨p1, hlt, (mem_map_swap _ _ _).mpr hp1⟩
      · exfalso
        rw [heq] at hp1
        have := h.funS q' q p hp1 hqp
        omega
      · exfalso
        rcases h.minc q' p1 hp1 p hgt (by omega) hchar.symm with
          ⟨q'', hq''lt, hq''mem⟩
        have := h.funS q'' q p hq''mem hqp
        omega
    · push_neg at hq'm
      exfalso
      have hq'len : q' < s2.length := by omega
      rcases h.skip q' hq'len (fun x => hq'm x) p hplen (by omega) (by omega)
          hchar.symm with ⟨q'', hq''lt, hq''mem⟩
      have := h.funS q'' q p hq''mem hqp
      omega

theorem greedyPairs_symm_mem (s1 s2 : Str) :
    ∀ p q, (p, q) ∈ greedyPairs s1 s2 ↔ (q, p) ∈ greedyPairs s2 s1 := by
  have hd : matchDistance s2.length s1.length =
      matchDistance s1.length s2.length := by
    unfold matchDistance
    rw [Nat.max_comm]
  have h1 := greedyPairs_spec s1 s2
  have h2 := greedySpec_swap (hd ▸ greedyPairs_spec s2 s1)
  intro p q
  rw [greedySpec_unique h1 h2 p q, mem_map_swap]

theorem greedyPairs_nodup (s1 s2 : Str) : (greedyPairs s1 s2).Nodup := by
  have h : ((greedyPairs s1 s2).map Prod.fst).Nodup :=
    (greedyPairs_fst_pairwise s1 s2).imp ne_of_lt
  exact List.Nodup.of_map _ h

theorem greedyPairs_length_symm (s1 s2 : Str) :
    (greedyPairs s1 s2).length = (greedyPairs s2 s1).length := by
  have hperm : List.Perm (greedyPairs s1 s2) ((greedyPairs s2 s1).map Prod.swap) := by
    rw [List.perm_ext_iff_of_nodup (greedyPairs_nodup s1 s2)
      (List.Nodup.map Prod.swap_injective (greedyPairs_nodup s2 s1))]
    rintro ⟨p, q⟩
    rw [mem_map_swap]
    exact greedyPairs_symm_mem s1 s2 p q
  rw [hperm.length_eq, List.length_map]

theorem matchedSeconds_eq_fst (s1 s2 : Str) :
    matchedSeconds s2.length (greedyPairs s1 s2) =
      (greedyPairs s2 s1).map Prod.fst := by
  have hmem : ∀ q, q ∈ matchedSeconds s2.length (greedyPairs s1 s2) ↔
      q ∈ (greedyPairs s2 s1).map Prod.fst := by
    intro q
    unfold matchedSeconds
    rw [List.mem_filter, List.mem_range, List.any_eq_true]
    constructor
    · rintro ⟨-, ⟨pq, hpq, hbeq⟩⟩
      rw [beq_iff_eq] at hbeq
      have hmem21 : (q, pq.1) ∈ greedyPairs s2 s1 := by
        rw [← greedyPairs_symm_mem]
        rw [← hbeq]
        exact hpq
      exact List.mem_map.mpr ⟨(q, pq.1), hmem21, rfl⟩
    · intro hq
      rcases List.mem_map.mp hq with ⟨⟨a, b⟩, hab, heq⟩
      have hq2 : (b, q) ∈ greedyPairs s1 s2 := by
        rw [greedyPairs_symm_mem]
        rw [show a = q from heq] at hab
        exact hab
      refine ⟨((greedyPairs_spec s1 s2).valid (b, q) hq2).2.1,
        ⟨(b, q), hq2, by rw [beq_iff_eq]⟩⟩
  have hnd1 : (matchedSeconds s2.length (greedyPairs s1 s2)).Nodup := by
    unfold matchedSeconds
    exact (List.nodup_range _).filter _
  have hnd2 : ((greedyPairs s2 s1).map Prod.fst).Nodup :=
    (greedyPairs_fst_pairwise s2 s1).imp ne_of_lt
  have hperm := (List.perm_ext_iff_of_nodup hnd1 hnd2).mpr hmem
  have hs1 : List.Sorted (· ≤ ·) (matchedSeconds s2.length (greedyPairs s1 s2)) := by
    unfold matchedSeconds
    exact List.Pairwise.imp le_of_lt
      ((List.pairwise_lt_range _).sublist (List.filter_sublist _))
  have hs2 : List.Sorted (· ≤ ·) ((greedyPairs s2 s1).map Prod.fst) :=
    List.Pairwise.imp le_of_lt (greedyPairs_fst_pairwise s2 s1)
  exact List.eq_of_perm_of_sorted hperm hs1 hs2

theorem beq_comm_char (a b : Char) : (a == b) = (b == a) := by
  by_cases h : a = b
  · rw [h]
  · rw [beq_eq_false_iff_ne.mpr h, beq_eq_false_iff_ne.mpr (Ne.symm h)]

theorem countNeq_zip_comm :
    ∀ (A B : Str), ((A.zip B).countP fun ab => !(ab.1 == ab.2)) =
      ((B.zip A).countP fun ab => !(ab.1 == ab.2)) := by
  intro A
  induction A with
  | nil =>
    intro B
    cases B <;> rfl
  | cons a A' ih =>
    intro B
    cases B with
    | nil => rfl
    | cons b B' =>
      rw [List.zip_cons_cons, List.zip_cons_cons, List.countP_cons,
        List.countP_cons, ih B']
      have : (!(a == b)) = (!(b == a)) := by rw [beq_comm_char]
      rw [this]

theorem transpositions_symm (s1 s2 : Str) :
    transpositionsOf s1 s2 (greedyPairs s1 s2) =
      transpositionsOf s2 s1 (greedyPairs s2 s1) := by
  unfold transpositionsOf
  rw [matchedSeconds_eq_fst s1 s2, matchedSeconds_eq_fst s2 s1]
  rw [show (greedyPairs s1 s2).map (fun pq => s1.getD pq.1 'A') =
      ((greedyPairs s1 s2).map Prod.fst).map (fun p => s1.getD p 'A') from by
    rw [List.map_map]; rfl]
  rw [show (greedyPairs s2 s1).map (fun pq => s2.getD pq.1 'A') =
      ((greedyPairs s2 s1).map Prod.fst).map (fun p => s2.getD p 'A') from by
    rw [List.map_map]; rfl]
  exact countNeq_zip_comm _ _

theorem jaroOf_symm (s1 s2 : Str) : jaroOf s1 s2 = jaroOf s2 s1 := by
  have hm := greedyPairs_length_symm s1 s2
  have ht := transpositions_symm s1 s2
  simp only [jaroOf]
  rw [hm, ht]
  by_cases h : (greedyPairs s2 s1).length = 0
  · rw [if_pos h, if_pos h]
  · rw [if_neg h, if_neg h]
    ring

theorem prefixBoostCount_symm (s1 s2 : Str) :
    prefixBoostCount s1 s2 = prefixBoostCount s2 s1 := by
  unfold prefixBoostCount
  rw [Nat.min_comm s1.length s2.length]
  apply List.countP_congr
  intro i _
  rw [beq_comm_char]

/-- Claim C8: `calculate_name_similarity` is symmetric in its two
arguments. -/
theorem calculate_name_similarity_symm (a b : Str) :
    calculate_name_similarity a b = calculate_name_similarity b a := by
  simp only [calculate_name_similarity]
  by_cases ha : a = []
  · by_cases hb : b = [] <;> simp [ha, hb]
  · by_cases hb : b = []
    · simp [ha, hb]
    · have hg1 : ¬((decide (a = []) || decide (b = [])) = true) := by
        simp [ha, hb]
      have hg2 : ¬((decide (b = []) || decide (a = [])) = true) := by
        simp [ha, hb]
      rw [if_neg hg1, if_neg hg2]
      by_cases heq : normName a = normName b
      · rw [if_pos heq, if_pos heq.symm]
      · have heq' : ¬(normName b = normName a) := fun h => heq h.symm
        rw [if_neg heq, if_neg heq']
        by_cases hlen : (normName a).length = 0 ∨ (normName b).length = 0
        · have hl1 : (decide ((normName a).length = 0) ||
              decide ((normName b).length = 0)) = true := by
            rcases hlen with h | h <;> simp [h]
          have hl2 : (decide ((normName b).length = 0) ||
              decide ((normName a).length = 0)) = true := by
            rcases hlen with h | h <;> simp [h]
          rw [if_pos hl1, if_pos hl2]
        · rw [not_or] at hlen
          have hl1 : ¬((decide ((normName a).length = 0) ||
              decide ((normName b).length = 0)) = true) := by
            simp [hlen.1, hlen.2]
          have hl2 : ¬((decide ((normName b).length = 0) ||
              decide ((normName a).length = 0)) = true) := by
            simp [hlen.1, hlen.2]
          rw [if_neg hl1, if_neg hl2]
          have hml := greedyPairs_length_symm (normName a) (normName b)
          by_cases hm : (greedyPairs (normName a) (normName b)).length = 0
          · have hm2 : (greedyPairs (normName b) (normName a)).length = 0 := by
              rw [← hml]
              exact hm
            rw [if_pos hm, if_pos hm2]
          · have hm2 : ¬((greedyPairs (normName b) (normName a)).length = 0) := by
              rw [← hml]
              exact hm
            rw [if_neg hm, if_neg hm2]
            rw [jaroOf_symm, prefixBoostCount_symm]
